import Mathlib

/-!
Shallow embedding of the Rainfall-Data-Extractor repository
(`StreamlitRainfallDataExtractor.py`, `netCDFDataExtractor.py`, and the
unnamed `Streamlit Rainfall Data Extractor.py`).

Real numbers of the Python program are modelled by `ℚ`; a floating value
that may be NaN is modelled by the inductive type `V`.  Behaviour of the
third-party libraries the program calls (netCDF4's auto-mask-and-scale on
variable reads, `nc.num2date`, numpy's `argmin`/`argsort`, pandas'
`sort_values` and `dropna`) is modelled from the libraries' documented
semantics; each such definition carries a doc comment saying so.
-/

set_option maxRecDepth 16000

namespace RainfallExtractor

/-- A floating-point value of the program: either a (finite) number,
modelled as a rational, or NaN. -/
inductive V where
  | num (q : ℚ)
  | nan
  deriving DecidableEq, Repr

/-- Rational multiplication written through `mkRat`.  It agrees with
`·*·` (`qmul_eq_mul` below); the core operator `Rat.mul` is marked
irreducible, which would block the definitional evaluation used by
`decide` on concrete inputs, so the embedding multiplies this way. -/
def qmul (a b : ℚ) : ℚ := mkRat (a.num * b.num) (a.den * b.den)

/-- Rational subtraction written through `mkRat`; it agrees with `·-·`
(`qsub_eq_sub` below), see `qmul`. -/
def qsub (a b : ℚ) : ℚ := mkRat (a.num * b.den - b.num * a.den) (a.den * b.den)

/-- Multiplication of a possibly-NaN value by a finite scalar,
as in the NumPy expression `data * scale_factor`: NaN is absorbing. -/
def V.mulScale (a : V) (s : ℚ) : V :=
  match a with
  | .num q => .num (qmul q s)
  | .nan => .nan

/-- `True` exactly on NaN; this is pandas' `isna` on a float cell. -/
def V.isNaN : V → Bool
  | .nan => true
  | .num _ => false

/-- A calendar date (year, month, day), the integral part of the instants
returned by `nc.num2date`. -/
structure CFDate where
  year : Int
  month : Int
  day : Int
  deriving DecidableEq, Repr, Inhabited

/-- Days elapsed since 1970-01-01 in the proleptic Gregorian calendar
(the "standard" calendar for modern dates), by the usual civil-calendar
day-count algorithm. -/
def CFDate.toDays (dt : CFDate) : Int :=
  let y := if dt.month ≤ 2 then dt.year - 1 else dt.year
  let era := Int.fdiv (if 0 ≤ y then y else y - 399) 400
  let yoe := y - era * 400
  let mp := if dt.month > 2 then dt.month - 3 else dt.month + 9
  let doy := Int.fdiv (153 * mp + 2) 5 + dt.day - 1
  let doe := yoe * 365 + Int.fdiv yoe 4 - Int.fdiv yoe 100 + doy
  era * 146097 + doe - 719468

/-- The proleptic Gregorian date lying `z` days after 1970-01-01
(inverse of `CFDate.toDays`). -/
def CFDate.ofDays (z0 : Int) : CFDate :=
  let z := z0 + 719468
  let era := Int.fdiv z 146097
  let doe := z - era * 146097
  let yoe := Int.fdiv (doe - Int.fdiv doe 1460 + Int.fdiv doe 36524 - Int.fdiv doe 146096) 365
  let y := yoe + era * 400
  let doy := doe - (365 * yoe + Int.fdiv yoe 4 - Int.fdiv yoe 100)
  let mp := Int.fdiv (5 * doy + 2) 153
  let d := doy - Int.fdiv (153 * mp + 2) 5 + 1
  let m := if mp < 10 then mp + 3 else mp - 9
  { year := if m ≤ 2 then y + 1 else y, month := m, day := d }

/-- Rank of a date in the `360_day` climate calendar: every year has
twelve 30-day months. -/
def CFDate.toDays360 (dt : CFDate) : Int :=
  dt.year * 360 + (dt.month - 1) * 30 + (dt.day - 1)

/-- The `360_day`-calendar date of a given rank (inverse of
`CFDate.toDays360`). -/
def CFDate.ofDays360 (r : Int) : CFDate :=
  let y := Int.fdiv r 360
  let rem := r - y * 360
  { year := y, month := Int.fdiv rem 30 + 1, day := Int.emod rem 30 + 1 }

/-- Modelled from the netCDF4 library: add a whole number of days to a
reference date under the arithmetic of the named CF calendar.  The
repository's datasets declare either no calendar (handled as "standard"
by the caller) or one of the CF names; "standard", "gregorian" and
"proleptic_gregorian" coincide on modern dates and are modelled as
proleptic Gregorian, and "360_day" uses twelve 30-day months.  Other CF
calendars are not exercised by this repository's data and are modelled
as Gregorian here. -/
def calAddDays (calendar : String) (epoch : CFDate) (n : Int) : CFDate :=
  if calendar = "360_day" then
    CFDate.ofDays360 (epoch.toDays360 + n)
  else
    CFDate.ofDays (epoch.toDays + n)

/-- The time `units` attribute of the repository's datasets, `"<unit>
since <reference-date>"`, with the unit being days for the rainfall
grids; modelled by its parsed reference date. -/
structure TimeUnits where
  epoch : CFDate
  deriving DecidableEq, Repr

/-- Modelled from the netCDF4 library's `nc.num2date`: convert each raw
numeric day offset into the calendar date obtained by calendar-aware
addition to the reference date of the units string, keyed on the
declared calendar name. -/
def num2date (time : List Int) (units : TimeUnits) (calendar : String) : List CFDate :=
  time.map (calAddDays calendar units.epoch)

/-- One stored cell of a netCDF variable: the raw packed number together
with the native missing flag that the underlying masked-array
representation may already carry for that element. -/
structure RawCell where
  raw : ℚ
  nativeMask : Bool
  deriving DecidableEq, Repr

/-- The parts of an opened netCDF dataset that `extract_data` reads:
variable names, the 1-D `x` and `y` coordinate arrays, the selected
variable's time series at a spatial index (`ds.variables[v][:, y_idx,
x_idx]` before the library's mask-and-scale conversion), the selected
variable's optional `scale_factor` and `_FillValue` attributes, and the
`time` variable with its `units` and optional `calendar` attributes. -/
structure NCFile where
  varNames : List String
  x : List ℚ
  y : List ℚ
  slice : Nat → Nat → List RawCell
  scale_factor : Option ℚ
  fillValue : Option ℚ
  time : List Int
  time_units : TimeUnits
  calendar : Option String

/-- Modelled from the netCDF4 library's documented default
auto-mask-and-scale behaviour on variable reads: an element is returned
masked exactly when its raw value equals the declared `_FillValue` or it
already carries the array's native missing flag, and every element's
payload is unpacked by multiplying with `scale_factor` when that
attribute is declared.  The result pairs the returned payload with the
mask bit. -/
def ncReadCell (fill : Option ℚ) (scaleAttr : Option ℚ) (c : RawCell) : ℚ × Bool :=
  (qmul c.raw (scaleAttr.getD 1),
   c.nativeMask || (match fill with | some f => decide (c.raw = f) | none => false))

/-- The masked array `ds.variables[v][:, y_idx, x_idx]` as the program
receives it from netCDF4 (see `ncReadCell`). -/
def ncRead (fill : Option ℚ) (scaleAttr : Option ℚ) (cells : List RawCell) : List (ℚ × Bool) :=
  cells.map (ncReadCell fill scaleAttr)

/-- Inner scan of numpy's `argmin`: carry the best index and best value
so far; a later element replaces the best only when strictly smaller,
so the first occurrence of the minimum wins. -/
def npArgminGo (bi : Nat) (bv : ℚ) (i : Nat) : List ℚ → Nat
  | [] => bi
  | c :: cs => if c < bv then npArgminGo i c (i + 1) cs else npArgminGo bi bv (i + 1) cs

/-- Modelled from numpy's `ndarray.argmin`: the index of the first
occurrence of the minimum value, or `none` for an empty array (numpy
raises `ValueError: attempt to get argmin of an empty sequence`). -/
def npArgmin (l : List ℚ) : Option Nat :=
  match l with
  | [] => none
  | a :: as => some (npArgminGo 0 a 1 as)

/-- The errors `extract_data` can raise, named after the spec's
taxonomy: `MissingVariableError` is the `ValueError` raised when the
selected variable is absent, and `EmptyGridError` is the `ValueError`
numpy's `argmin` raises on an empty coordinate array. -/
inductive ExtractErr where
  | MissingVariableError (varName : String)
  | EmptyGridError
  deriving DecidableEq, Repr

/-- Lines 24-27 of the source: `np.abs(x - target).argmin()` over a
coordinate array, failing on an empty array. -/
def nearestIdx (coords : List ℚ) (target : ℚ) : Except ExtractErr Nat :=
  match npArgmin (coords.map (fun v => |qsub v target|)) with
  | none => .error .EmptyGridError
  | some i => .ok i

/-- `extract_data(uploaded_file, variable, target_x, target_y)` from
`StreamlitRainfallDataExtractor.py` (also `extract_rainfall` of the
rainfall front-end with `variable = "rainfall_amount"`): check the
variable exists, resolve the nearest grid indices on the `x` and `y`
axes, read the variable's time series at that point (netCDF4 delivers
it masked and already unpacked, see `ncReadCell`), replace masked
values by NaN when any element is masked, multiply by the
`scale_factor` attribute (default 1), and decode the time axis with
`num2date` under the declared calendar (default "standard").
`maskAndScaleCode` is the mask-and-scale portion, lines 36-50: replace
masked values by NaN when any element is masked (`ma.is_masked` /
`filled(np.nan)`), then multiply by the `scale_factor` attribute
(`data = data * scale_factor`, default 1). -/
def maskAndScaleCode (data : List (ℚ × Bool)) (scale_factor : ℚ) : List V :=
  match
    if data.any (fun c => c.2) then
      data.map (fun c => if c.2 then V.nan else V.num c.1)
    else
      data.map (fun c => V.num c.1)
  with
  | data2 => data2.map (fun a => a.mulScale scale_factor)

def extract_data (ds : NCFile) (varName : String) (target_x target_y : ℚ) :
    Except ExtractErr (List CFDate × List V) :=
  if varName ∉ ds.varNames then .error (.MissingVariableError varName)
  else
    match nearestIdx ds.x target_x with
    | .error e => .error e
    | .ok x_idx =>
      match nearestIdx ds.y target_y with
      | .error e => .error e
      | .ok y_idx =>
        match maskAndScaleCode (ncRead ds.fillValue ds.scale_factor (ds.slice y_idx x_idx))
            (ds.scale_factor.getD 1) with
        | data3 => .ok (num2date ds.time ds.time_units (ds.calendar.getD "standard"), data3)

instance : Inhabited V := ⟨V.nan⟩

/-- Chronological comparison key of a date: cftime datetimes of one
calendar compare lexicographically on (year, month, day). -/
def CFDate.lexKey (d : CFDate) : Int ×ₗ (Int ×ₗ Int) :=
  toLex (d.year, toLex (d.month, d.day))

instance : LinearOrder CFDate :=
  LinearOrder.lift' CFDate.lexKey (fun a b h => by
    cases a; cases b
    simpa [CFDate.lexKey, toLex, Prod.ext_iff, CFDate.mk.injEq] using h)

section Sorting

variable {K : Type}

/-- `tosort[i]` of the C sorting routines underlying numpy's
`argsort` (the tosort index array is modelled as a `List Nat`). -/
def getI (t : List Nat) (i : Nat) : Nat := t.getD i 0

/-- The write `tosort[i] = x`. -/
def setI (t : List Nat) (i x : Nat) : List Nat := t.set i x

/-- `INTP_SWAP(tosort[i], tosort[j])`. -/
def swpI (t : List Nat) (i j : Nat) : List Nat :=
  setI (setI t i (getI t j)) j (getI t i)

/-- The indices the tosort list holds on the segment starting at `a` of
length `len`. -/
def segIdx (t : List Nat) (a len : Nat) : List Nat :=
  (List.range' a len).map (fun k => getI t k)

/-- The keys the tosort list points to on the segment starting at `a`
of length `len`. -/
def segKeys (v : Nat → K) (t : List Nat) (a len : Nat) : List K :=
  (segIdx t a len).map v

/-- The sorting phases below touch a tosort list only inside the
segment `[lo, hi]`: same length, and entries outside are untouched. -/
def SameOutside (t' t : List Nat) (lo hi : Nat) : Prop :=
  t'.length = t.length ∧ ∀ k, (k < lo ∨ hi < k) → getI t' k = getI t k

variable [LinearOrder K]

/-- `do ++pi; while (v[tosort[pi]] < vp)` of numpy's quicksort
partition, with explicit fuel (the real loop is stopped by the pivot
sentinel). -/
def scanR (v : Nat → K) (vp : K) (t : List Nat) (pi fuel : Nat) : Nat :=
  match fuel with
  | 0 => pi + 1
  | fuel + 1 => if v (getI t (pi + 1)) < vp then scanR v vp t (pi + 1) fuel else pi + 1

/-- `do --pj; while (vp < v[tosort[pj]])` of numpy's quicksort
partition. -/
def scanL (v : Nat → K) (vp : K) (t : List Nat) (pj fuel : Nat) : Nat :=
  match fuel with
  | 0 => pj - 1
  | fuel + 1 => if vp < v (getI t (pj - 1)) then scanL v vp t (pj - 1) fuel else pj - 1

/-- The exchange loop of the Hoare partition: advance both cursors,
stop when they cross, otherwise swap and continue.  Returns the final
tosort list and the left cursor. -/
def partLoop (v : Nat → K) (vp : K) (t : List Nat) (pi pj pr fuel : Nat) :
    List Nat × Nat :=
  match fuel with
  | 0 => (t, pi + 1)
  | fuel + 1 =>
    match scanR v vp t pi pr, scanL v vp t pj pr with
    | pi', pj' =>
      if pj' ≤ pi' then (t, pi')
      else partLoop v vp (swpI t pi' pj') pi' pj' pr fuel

/-- Median-of-three pivot selection of numpy's quicksort
(`pm = pl + ((pr - pl) >> 1)` and the three conditional swaps), then the
move of the pivot entry to position `pr - 1`. -/
def partSetup (v : Nat → K) (t : List Nat) (pl pr : Nat) : List Nat × K :=
  match pl + (pr - pl) / 2 with
  | pm =>
    match if v (getI t pm) < v (getI t pl) then swpI t pm pl else t with
    | t1 =>
      match if v (getI t1 pr) < v (getI t1 pm) then swpI t1 pr pm else t1 with
      | t2 =>
        match if v (getI t2 pm) < v (getI t2 pl) then swpI t2 pm pl else t2 with
        | t3 => (swpI t3 pm (pr - 1), v (getI t3 pm))

/-- One full Hoare partition step of numpy's quicksort on the segment
`[pl, pr]`: pivot setup, exchange loop, final placement of the pivot at
the crossing point.  Returns the new tosort list and the pivot
position. -/
def partStep (v : Nat → K) (t : List Nat) (pl pr : Nat) : List Nat × Nat :=
  match partSetup v t pl pr with
  | (t1, vp) =>
    match partLoop v vp t1 pl (pr - 1) pr pr with
    | (t2, pi) => (swpI t2 pi (pr - 1), pi)

/-- The shifting inner `while` of numpy's insertion sort: move entries
one slot to the right while the inserted key is strictly smaller than
theirs.  Returns the list and the final insertion slot.  The fuel only
needs to cover the distance from `pj` down to `pl`, so callers pass
`pj` itself. -/
def insShift (v : Nat → K) (vp : K) (t : List Nat) (pl pj fuel : Nat) : List Nat × Nat :=
  match fuel with
  | 0 => (t, pj)
  | fuel + 1 =>
    if pl < pj ∧ vp < v (getI t (pj - 1)) then
      insShift v vp (setI t pj (getI t (pj - 1))) pl (pj - 1) fuel
    else (t, pj)

/-- The outer `pi` loop of numpy's insertion sort over the tosort
segment `[pl, pr]`; the fuel only needs to cover the iterations from
`pi` up to `pr`. -/
def insLoop (v : Nat → K) (t : List Nat) (pl pi pr fuel : Nat) : List Nat :=
  match fuel with
  | 0 => t
  | fuel + 1 =>
    if pi ≤ pr then
      match getI t pi with
      | vi =>
        match insShift v (v vi) t pl pi pi with
        | (t1, pj) => insLoop v (setI t1 pj vi) pl (pi + 1) pr fuel
    else t

/-- numpy's insertion sort of the tosort segment `[pl, pr]`, used by the
quicksort on segments of at most `SMALL_QUICKSORT + 1 = 16` entries. -/
def insSort (v : Nat → K) (t : List Nat) (pl pr : Nat) : List Nat :=
  insLoop v t pl (pl + 1) pr (pr + 1)

/-- The sift-down loop shared by both phases of numpy's argsort
heapsort, on the 1-based view `a[k] = tosort[pl + k - 1]` of the
segment: walk the hole at `i` down towards the larger child while that
child's key exceeds the sifted key `vtmp`.  Returns the list and the
hole's final 1-based position. -/
def hsift (v : Nat → K) (pl : Nat) (t : List Nat) (vtmp : K) (i j n fuel : Nat) :
    List Nat × Nat :=
  match fuel with
  | 0 => (t, i)
  | fuel + 1 =>
    if j ≤ n then
      match if j < n ∧ v (getI t (pl + j - 1)) < v (getI t (pl + j)) then j + 1 else j with
      | j1 =>
        if vtmp < v (getI t (pl + j1 - 1)) then
          hsift v pl (setI t (pl + i - 1) (getI t (pl + j1 - 1))) vtmp j1 (2 * j1) n fuel
        else (t, i)
    else (t, i)

/-- Build phase of numpy's heapsort: heapify the roots `l, l-1, ..., 1`
(the first `for` loop). -/
def hBuild (v : Nat → K) (pl : Nat) (t : List Nat) (l n : Nat) : List Nat :=
  match l with
  | 0 => t
  | l + 1 =>
    match getI t (pl + l) with
    | tmp =>
      match hsift v pl t (v tmp) (l + 1) (2 * (l + 1)) n n with
      | (t1, i1) => hBuild v pl (setI t1 (pl + i1 - 1) tmp) l n

/-- Extract phase of numpy's heapsort: repeatedly swap the heap maximum
`a[1]` with `a[n]`, shrink, and re-sift (the second `for` loop); the
fuel only needs to cover the `n - 1` shrinking steps. -/
def hExtract (v : Nat → K) (pl : Nat) (t : List Nat) (n fuel : Nat) : List Nat :=
  match fuel with
  | 0 => t
  | fuel + 1 =>
    if 1 < n then
      match getI t (pl + n - 1) with
      | tmp =>
        match setI t (pl + n - 1) (getI t pl) with
        | t1 =>
          match hsift v pl t1 (v tmp) 1 2 (n - 1) (n - 1) with
          | (t2, i2) => hExtract v pl (setI t2 (pl + i2 - 1) tmp) (n - 1) fuel
    else t

/-- numpy's `aheapsort` of the tosort segment of length `n` starting at
`pl`, the depth-limit fallback of the introsort. -/
def aheapsort (v : Nat → K) (t : List Nat) (pl n : Nat) : List Nat :=
  hExtract v pl (hBuild v pl t (n / 2) n) n n

/-- The main loop of numpy's `aquicksort` (an introsort): segments of
more than `SMALL_QUICKSORT = 15` entries are partitioned — the smaller
part is processed next by the loop itself, the larger part is pushed
with the decremented depth budget and, once popped, is heapsorted when
the budget has run out — and small segments are insertion sorted.
`fuel` bounds the recursion depth; the top-level call provides more
than the segment length, so it is never exhausted. -/
def aqsWhile (v : Nat → K) (t : List Nat) (pl pr : Nat) (depth : Int) (fuel : Nat) :
    List Nat :=
  match fuel with
  | 0 => t
  | fuel + 1 =>
    if 15 < pr - pl then
      match partStep v t pl pr with
      | (t1, pi) =>
        match depth - 1 with
        | d =>
          if pi - pl < pr - pi then
            match aqsWhile v t1 pl (pi - 1) d fuel with
            | t2 =>
              if d < 0 then aheapsort v t2 (pi + 1) (pr - pi)
              else aqsWhile v t2 (pi + 1) pr d fuel
          else
            match aqsWhile v t1 (pi + 1) pr d fuel with
            | t2 =>
              if d < 0 then aheapsort v t2 pl (pi - pl)
              else aqsWhile v t2 pl (pi - 1) d fuel
    else insSort v t pl pr

/-- numpy's `npy_get_msb`, the position of the highest set bit
(`floor (log2 n)` for positive `n`), written with fuel so that it
evaluates definitionally; callers pass `n` itself as fuel. -/
def npyGetMsb (unum fuel : Nat) : Nat :=
  match fuel with
  | 0 => 0
  | fuel + 1 => if unum / 2 = 0 then 0 else npyGetMsb (unum / 2) fuel + 1

/-- Modelled from numpy's `argsort(kind='quicksort')` — since numpy
1.17 an introsort with depth budget `2 * npy_get_msb n`: the list of
positions that rearranges `keys` ascending. -/
def npArgsortList [Inhabited K] (keys : List K) : List Nat :=
  match keys.length with
  | n =>
    aqsWhile (fun i => keys.getD i default) (List.range n) 0 (n - 1)
      (2 * (npyGetMsb n n : Int)) (n + 1)

/-- Modelled from pandas `nargsort`, the indexer behind
`sort_values('date')`: argsort the non-missing keys with numpy's
default quicksort, then append the positions of the missing keys in
positional order (`na_position='last'`). -/
def nargsort [Inhabited K] (keys : List (Option K)) : List Nat :=
  let idx := List.range keys.length
  let nonNanIdx := idx.filter (fun i => (keys.getD i none).isSome)
  let nanIdx := idx.filter (fun i => (keys.getD i none).isNone)
  (npArgsortList (keys.filterMap id)).map (fun p => nonNanIdx.getD p 0) ++ nanIdx

/-- `df = df.sort_values('date')` (line 118): permute the rows by
`nargsort` of the date column; pandas' default sort kind is numpy's
quicksort, which is not a stable sort. -/
def sort_values [Inhabited K] (rows : List (Option K × V)) : List (Option K × V) :=
  (nargsort (rows.map Prod.fst)).map (fun i => rows.getD i (none, V.nan))

/-- `df = df.dropna()` (line 121 of the generic front-ends), modelled
from pandas: keep exactly the rows with no missing cell in any column —
a missing (NaT) date disqualifies a row just as a NaN value does. -/
def dropna_all (rows : List (Option K × V)) : List (Option K × V) :=
  rows.filter (fun r => r.1.isSome && !r.2.isNaN)

/-- `df = df.dropna(subset=['rainfall'])` (line 116 of the rainfall
front-end): only the value column is inspected, so rows with a missing
date survive. -/
def dropna_value (rows : List (Option K × V)) : List (Option K × V) :=
  rows.filter (fun r => !r.2.isNaN)

end Sorting

/-- The per-file loop of `main` (lines 106-114): run `extract_data` on
each uploaded file in order; on success extend the accumulator with
`zip(dates, data)`, on failure record the error together with the
file's name and continue with the remaining files. -/
def runBatch (files : List (String × NCFile)) (varName : String) (tx ty : ℚ) :
    List (Option CFDate × V) × List (String × ExtractErr) :=
  match files with
  | [] => ([], [])
  | (nm, ds) :: rest =>
    let acc := runBatch rest varName tx ty
    match extract_data ds varName tx ty with
    | .ok (dates, vals) => ((dates.zip vals).map (fun p => (some p.1, p.2)) ++ acc.1, acc.2)
    | .error err => (acc.1, (nm, err) :: acc.2)

/-- Lines 106-121 of `main` in `StreamlitRainfallDataExtractor.py`:
accumulate the per-file series, build the dataframe, sort it by date,
drop rows with NaN cells, and hand the final series to presentation
together with the recorded per-file errors. -/
def mainPipeline (files : List (String × NCFile)) (varName : String) (tx ty : ℚ) :
    List (Option CFDate × V) × List (String × ExtractErr) :=
  let acc := runBatch files varName tx ty
  (dropna_all (sort_values acc.1), acc.2)

/-- The same batch stage in the rainfall front-end (`part_000`,
lines 101-116, whose `extract_rainfall` is `extract_data` fixed to the
variable `"rainfall_amount"`): identical except that the NaN drop is
restricted to the rainfall column. -/
def mainPipelineRainfall (files : List (String × NCFile)) (tx ty : ℚ) :
    List (Option CFDate × V) × List (String × ExtractErr) :=
  let acc := runBatch files "rainfall_amount" tx ty
  (dropna_value (sort_values acc.1), acc.2)

/-- The contribution of one file to the accumulator `all_data`: its
zipped series on success, nothing on failure. -/
def okRows (varName : String) (tx ty : ℚ) (p : String × NCFile) : List (Option CFDate × V) :=
  match extract_data p.2 varName tx ty with
  | .ok (dates, vals) => (dates.zip vals).map (fun q => (some q.1, q.2))
  | .error _ => []

/-- The contribution of one file to the recorded error list: its name
and error on failure, nothing on success. -/
def errEntry (varName : String) (tx ty : ℚ) (p : String × NCFile) :
    Option (String × ExtractErr) :=
  match extract_data p.2 varName tx ty with
  | .ok _ => none
  | .error e => some (p.1, e)

instance {e a : Type} [DecidableEq e] [DecidableEq a] : DecidableEq (Except e a)
  | .error x, .error y =>
    decidable_of_iff (x = y) ⟨fun hh => by rw [hh], fun hh => by injection hh⟩
  | .error _, .ok _ => isFalse (fun hh => Except.noConfusion hh)
  | .ok _, .error _ => isFalse (fun hh => Except.noConfusion hh)
  | .ok x, .ok y =>
    decidable_of_iff (x = y) ⟨fun hh => by rw [hh], fun hh => by injection hh⟩

/-- Concrete dataset of the spec's decoding example: raw slice
`[5, -9999, 10]` with `scale_factor = 0.1` and `_FillValue = -9999`. -/
def dsScaleExample : NCFile :=
  { varNames := ["rain"], x := [0], y := [0],
    slice := fun _ _ => [⟨5, false⟩, ⟨-9999, false⟩, ⟨10, false⟩],
    scale_factor := some (mkRat 1 10), fillValue := some (-9999),
    time := [0, 1, 2], time_units := ⟨⟨2021, 1, 1⟩⟩, calendar := none }

/-- Concrete dataset of the spec's defaults example: raw slice
`[5, 10]` with neither a `scale_factor` nor a `_FillValue` attribute. -/
def dsDefaultsExample : NCFile :=
  { varNames := ["rain"], x := [0], y := [0],
    slice := fun _ _ => [⟨5, false⟩, ⟨10, false⟩],
    scale_factor := none, fillValue := none,
    time := [0, 1], time_units := ⟨⟨2021, 1, 1⟩⟩, calendar := none }

/-- A dataset exposing no variables at all: every extraction from it
fails with `MissingVariableError`. -/
def dsNoVars : NCFile :=
  { varNames := [], x := [0], y := [0], slice := fun _ _ => [],
    scale_factor := none, fillValue := none,
    time := [], time_units := ⟨⟨1970, 1, 1⟩⟩, calendar := none }

/-- A one-point, one-time-step dataset holding the single raw value
`val` at day offset `t` since 2021-01-01, used to build concrete
multi-file batches. -/
def cxFile (t : Int) (val : ℚ) : NCFile :=
  { varNames := ["rain"], x := [0], y := [0],
    slice := fun _ _ => [⟨val, false⟩],
    scale_factor := none, fillValue := none,
    time := [t], time_units := ⟨⟨2021, 1, 1⟩⟩, calendar := none }

/-- Seventeen one-row sources: source 0 dated 2021-01-02, sources 1-8
dated 2021-01-01, sources 9-16 dated 2021-01-02, each carrying its own
source number as value. -/
def cxFiles : List (String × NCFile) :=
  (List.range 17).map
    (fun i => (toString i, cxFile (if 1 ≤ i ∧ i ≤ 8 then 0 else 1) (mkRat i 1)))

/-! ## Theorems -/

lemma qmul_eq_mul (a b : ℚ) : qmul a b = a * b := by
  conv_rhs => rw [← Rat.mkRat_self a, ← Rat.mkRat_self b]
  rw [Rat.mkRat_mul_mkRat]
  rfl

lemma qsub_eq_sub (a b : ℚ) : qsub a b = a - b := by
  conv_rhs => rw [← Rat.num_div_den a, ← Rat.num_div_den b]
  rw [div_sub_div _ _ (by positivity) (by positivity)]
  rw [qsub, Rat.mkRat_eq_div]
  push_cast
  ring_nf

lemma npArgminGo_spec (d : List ℚ) :
    ∀ (l : List ℚ) (bi i : Nat) (bv : ℚ), bi < i → bv = d.getD bi 0 →
      (∀ j, j < i → bv ≤ d.getD j 0) → (∀ j, j < bi → bv < d.getD j 0) →
      i + l.length = d.length →
      (∀ k, k < l.length → l.getD k 0 = d.getD (i + k) 0) →
      npArgminGo bi bv i l < d.length ∧
        (∀ j, j < d.length → d.getD (npArgminGo bi bv i l) 0 ≤ d.getD j 0) ∧
        (∀ j, j < npArgminGo bi bv i l → d.getD (npArgminGo bi bv i l) 0 < d.getD j 0)
  | [] => by
    intro bi i bv hbi hbv hle hlt hlen _
    simp only [npArgminGo]
    have hd : i = d.length := by simpa using hlen
    subst hbv
    exact ⟨by omega, fun j hj => hle j (by omega), hlt⟩
  | c :: cs => by
    intro bi i bv hbi hbv hle hlt hlen hk
    have hc : c = d.getD i 0 := by simpa using hk 0 (by simp)
    have hcs : ∀ k, k < cs.length → cs.getD k 0 = d.getD (i + 1 + k) 0 := by
      intro k hkk
      have := hk (k + 1) (by simp; omega)
      simpa [List.getD_cons_succ, Nat.add_assoc, Nat.add_comm 1 k] using this
    have hlen' : i + 1 + cs.length = d.length := by simp at hlen; omega
    simp only [npArgminGo]
    by_cases hlt1 : c < bv
    · rw [if_pos hlt1]
      refine npArgminGo_spec d cs i (i + 1) c (by omega) hc ?_ ?_ hlen' hcs
      · intro j hj
        rcases Nat.lt_or_ge j i with hji | hji
        · exact le_of_lt (lt_of_lt_of_le hlt1 (hle j hji))
        · have hji' : j = i := by omega
          subst hji'
          rw [← hc]
      · intro j hj
        exact lt_of_lt_of_le hlt1 (hle j hj)
    · rw [if_neg hlt1]
      refine npArgminGo_spec d cs bi (i + 1) bv (by omega) hbv ?_ hlt hlen' hcs
      intro j hj
      rcases Nat.lt_or_ge j i with hji | hji
      · exact hle j hji
      · have hji' : j = i := by omega
        subst hji'
        rw [← hc]
        exact le_of_not_lt hlt1

lemma npArgmin_spec (d : List ℚ) (h : d ≠ []) :
    ∃ i, npArgmin d = some i ∧ i < d.length ∧
      (∀ j, j < d.length → d.getD i 0 ≤ d.getD j 0) ∧
      (∀ j, j < i → d.getD i 0 < d.getD j 0) := by
  match d, h with
  | a :: as, _ =>
    refine ⟨npArgminGo 0 a 1 as, rfl, ?_⟩
    refine npArgminGo_spec (a :: as) as 0 1 a (by omega) (by simp) ?_
      (fun j hj => absurd hj (by omega)) (by rw [List.length_cons, Nat.add_comm])
      (fun k hk => by rw [Nat.add_comm 1 k, List.getD_cons_succ])
    intro j hj
    have hj0 : j = 0 := by omega
    subst hj0; simp

lemma nearestIdx_error_iff (l : List ℚ) (t : ℚ) (e : ExtractErr) :
    nearestIdx l t = .error e ↔ (l = [] ∧ e = .EmptyGridError) := by
  constructor
  · intro h
    cases l with
    | nil => simpa [nearestIdx, npArgmin] using h.symm
    | cons a as => simp [nearestIdx, npArgmin] at h
  · rintro ⟨rfl, rfl⟩
    simp [nearestIdx, npArgmin]

lemma nearestIdx_ok_of_ne_nil (l : List ℚ) (t : ℚ) (h : l ≠ []) :
    ∃ i, nearestIdx l t = .ok i := by
  cases l with
  | nil => exact absurd rfl h
  | cons a as =>
    exact ⟨npArgminGo 0 |qsub a t| 1 (as.map fun v => |qsub v t|), rfl⟩

/-- C3: for every non-empty coordinate array and every target, the
nearest-grid-point resolver succeeds and returns the lowest index
minimizing the absolute difference to the target (first-occurrence
argmin); in particular a target outside the array's range still
resolves to the nearest endpoint instead of raising an error. -/
theorem C3_first_occurrence_argmin :
    (∀ (xs : List ℚ) (t : ℚ), xs ≠ [] →
      ∃ i, nearestIdx xs t = .ok i ∧ i < xs.length ∧
        (∀ j, j < xs.length → |xs.getD i 0 - t| ≤ |xs.getD j 0 - t|) ∧
        (∀ j, j < i → |xs.getD i 0 - t| < |xs.getD j 0 - t|)) ∧
      nearestIdx [0, 10, 20, 30] 15 = .ok 1 ∧
      ([0, 10, 20, 30] : List ℚ).getD 1 0 = 10 ∧
      nearestIdx [0, 10, 20, 30] 1000 = .ok 3 := by
  refine ⟨?_, by decide, by decide, by decide⟩
  intro xs t hne
  have hmap : xs.map (fun v => |qsub v t|) ≠ [] := by
    simpa using hne
  obtain ⟨i, hio, hlen, hle, hlt⟩ := npArgmin_spec _ hmap
  rw [List.length_map] at hlen
  have hget : ∀ j, j < xs.length →
      (xs.map (fun v => |qsub v t|)).getD j 0 = |xs.getD j 0 - t| := by
    intro j hj
    rw [List.getD_eq_getElem _ _ (by simpa using hj), List.getD_eq_getElem _ _ hj]
    simp [qsub_eq_sub]
  refine ⟨i, ?_, hlen, ?_, ?_⟩
  · unfold nearestIdx
    rw [hio]
  · intro j hj
    have := hle j (by simpa using hj)
    rwa [hget i hlen, hget j hj] at this
  · intro j hj
    have := hlt j hj
    rwa [hget i hlen, hget j (hj.trans hlen)] at this

/-- A witness for C3 at the spec's concrete array: the resolver picks
index 1 for target 15 over `[0, 10, 20, 30]` and its distance is
minimal, with every earlier index strictly worse. -/
theorem C3_first_occurrence_argmin_witness :
    ∃ i, nearestIdx [0, 10, 20, 30] 15 = .ok i ∧ i < 4 ∧
      (∀ j, j < 4 → |([0, 10, 20, 30] : List ℚ).getD i 0 - 15| ≤
        |([0, 10, 20, 30] : List ℚ).getD j 0 - 15|) ∧
      (∀ j, j < i → |([0, 10, 20, 30] : List ℚ).getD i 0 - 15| <
        |([0, 10, 20, 30] : List ℚ).getD j 0 - 15|) :=
  C3_first_occurrence_argmin.1 [0, 10, 20, 30] 15 (by decide)

/-- C7: per-source extraction fails with `MissingVariableError` exactly
when the requested variable is absent from the source's variables; the
check precedes every coordinate or data access, so it wins even on a
dataset whose coordinate arrays are empty. -/
theorem C7_missing_variable_iff :
    ∀ (ds : NCFile) (varName : String) (tx ty : ℚ),
      extract_data ds varName tx ty = .error (.MissingVariableError varName) ↔
        varName ∉ ds.varNames := by
  intro ds v tx ty
  constructor
  · intro h
    by_contra hmem
    unfold extract_data at h
    rw [if_neg (not_not_intro hmem)] at h
    cases hx : nearestIdx ds.x tx with
    | error e =>
      rw [hx] at h
      have := ((nearestIdx_error_iff _ _ _).mp hx).2
      simp [this] at h
    | ok xi =>
      rw [hx] at h
      cases hy : nearestIdx ds.y ty with
      | error e =>
        rw [hy] at h
        have := ((nearestIdx_error_iff _ _ _).mp hy).2
        simp [this] at h
      | ok yi =>
        rw [hy] at h
        simp at h
  · intro h
    unfold extract_data
    rw [if_pos h]

/-- C6: extraction of an available variable fails with
`EmptyGridError` exactly when one of the dataset's coordinate arrays is
empty; in particular no such error is ever raised for non-empty
coordinate arrays. -/
theorem C6_empty_grid_iff :
    ∀ (ds : NCFile) (varName : String) (tx ty : ℚ),
      extract_data ds varName tx ty = .error .EmptyGridError ↔
        (varName ∈ ds.varNames ∧ (ds.x = [] ∨ ds.y = [])) := by
  intro ds v tx ty
  unfold extract_data
  by_cases hmem : v ∉ ds.varNames
  · rw [if_pos hmem]
    simp [hmem]
  · rw [if_neg hmem]
    rw [not_not] at hmem
    cases hx : nearestIdx ds.x tx with
    | error e =>
      obtain ⟨hxe, rfl⟩ := (nearestIdx_error_iff _ _ _).mp hx
      simp [hmem, hxe]
    | ok xi =>
      have hxne : ds.x ≠ [] := by
        intro hh
        rw [(nearestIdx_error_iff ds.x tx .EmptyGridError).mpr ⟨hh, rfl⟩] at hx
        simp at hx
      cases hy : nearestIdx ds.y ty with
      | error e =>
        obtain ⟨hye, rfl⟩ := (nearestIdx_error_iff _ _ _).mp hy
        simp [hmem, hxne, hye]
      | ok yi =>
        have hyne : ds.y ≠ [] := by
          intro hh
          rw [(nearestIdx_error_iff ds.y ty .EmptyGridError).mpr ⟨hh, rfl⟩] at hy
          simp at hy
        simp [hmem, hxne, hyne]

lemma maskAndScale_ncRead (cells : List RawCell) (fill : Option ℚ) (sA : Option ℚ) :
    maskAndScaleCode (ncRead fill sA cells) (sA.getD 1) =
      cells.map (fun c =>
        if c.nativeMask || (match fill with | some f => decide (c.raw = f) | none => false)
        then V.nan else V.num (c.raw * sA.getD 1 * sA.getD 1)) := by
  unfold maskAndScaleCode ncRead
  split
  · rw [List.map_map, List.map_map]
    refine List.map_congr_left (fun c _ => ?_)
    rcases c with ⟨craw, cm⟩
    rcases fill with _ | f
    · cases cm <;> simp [ncReadCell, V.mulScale, Function.comp, qmul_eq_mul]
    · cases cm
      · by_cases hf : craw = f
        · simp [ncReadCell, V.mulScale, Function.comp, hf, qmul_eq_mul]
        · simp [ncReadCell, V.mulScale, Function.comp, hf, qmul_eq_mul]
      · simp [ncReadCell, V.mulScale, Function.comp, qmul_eq_mul]
  · next hany =>
    rw [List.map_map, List.map_map]
    simp only [Bool.not_eq_true, List.any_eq_false] at hany
    refine List.map_congr_left (fun c hc => ?_)
    have hcm := hany _ (List.mem_map_of_mem (ncReadCell fill sA) hc)
    simp only [ncReadCell, Bool.not_eq_true] at hcm
    simp [Function.comp, ncReadCell, V.mulScale, hcm, qmul_eq_mul]

lemma extract_vals_spec (ds : NCFile) (varName : String) (tx ty : ℚ) (xi yi : Nat)
    (hx : nearestIdx ds.x tx = .ok xi) (hy : nearestIdx ds.y ty = .ok yi)
    (hv : varName ∈ ds.varNames) :
    extract_data ds varName tx ty =
      .ok (num2date ds.time ds.time_units (ds.calendar.getD "standard"),
        (ds.slice yi xi).map (fun c =>
          if c.nativeMask ||
              (match ds.fillValue with | some f => decide (c.raw = f) | none => false)
          then V.nan
          else V.num (c.raw * ds.scale_factor.getD 1 * ds.scale_factor.getD 1))) := by
  unfold extract_data
  rw [if_neg (not_not_intro hv), hx, hy]
  exact congrArg (fun z => Except.ok
    (num2date ds.time ds.time_units (ds.calendar.getD "standard"), z))
    (maskAndScale_ncRead (ds.slice yi xi) ds.fillValue ds.scale_factor)

/-- C2 (code bug): on the spec's decoding example — raw sequence
`[5, -9999, 10]` with `scale_factor = 0.1` and `fill_value = -9999` —
the program produces `[0.05, NaN, 0.1]`, not the claimed
`[0.5, NaN, 1.0]`: netCDF4's default auto-scaling has already unpacked
the data by `scale_factor` when line 49 multiplies by it again, so every
non-missing sample decodes to `raw * scale_factor²`.  The missing-ness
rule itself (fill-valued or natively masked ⇒ NaN) is as claimed. -/
theorem C2_scale_applied_twice :
    extract_data dsScaleExample "rain" 0 0 =
      .ok ([⟨2021, 1, 1⟩, ⟨2021, 1, 2⟩, ⟨2021, 1, 3⟩],
        [V.num (mkRat 1 20), V.nan, V.num (mkRat 1 10)]) ∧
    mkRat 1 20 ≠ mkRat 1 2 ∧ mkRat 1 10 ≠ 1 :=
  ⟨by decide, by decide, by decide⟩

/-- C8: when the `scale_factor` attribute is absent it defaults to 1
and when `_FillValue` is absent only the array's native missing flag
can mark a sample missing, so extraction decodes every raw sample
unchanged (NaN exactly on natively-flagged samples). -/
theorem C8_absent_attribute_defaults (ds : NCFile) (varName : String) (tx ty : ℚ)
    (hs : ds.scale_factor = none) (hf : ds.fillValue = none)
    (hv : varName ∈ ds.varNames) (xi yi : Nat)
    (hx : nearestIdx ds.x tx = .ok xi) (hy : nearestIdx ds.y ty = .ok yi) :
    extract_data ds varName tx ty =
      .ok (num2date ds.time ds.time_units (ds.calendar.getD "standard"),
        (ds.slice yi xi).map (fun c => if c.nativeMask then V.nan else V.num c.raw)) := by
  rw [extract_vals_spec ds varName tx ty xi yi hx hy hv]
  simp [hs, hf]

/-- Witness for C8 at the spec's concrete example: raw `[5, 10]` with
neither attribute decodes to `[5.0, 10.0]` unchanged. -/
theorem C8_absent_attribute_defaults_witness :
    extract_data dsDefaultsExample "rain" 0 0 =
      .ok ([⟨2021, 1, 1⟩, ⟨2021, 1, 2⟩], [V.num 5, V.num 10]) := by
  have h := C8_absent_attribute_defaults dsDefaultsExample "rain" 0 0 rfl rfl
    (by simp [dsDefaultsExample]) 0 0 (by decide) (by decide)
  rw [h]
  decide

lemma extract_ok_dates (ds : NCFile) (varName : String) (tx ty : ℚ)
    (r : List CFDate × List V) (hok : extract_data ds varName tx ty = .ok r) :
    r.1 = num2date ds.time ds.time_units (ds.calendar.getD "standard") := by
  unfold extract_data at hok
  split at hok
  · exact absurd hok (by simp)
  · split at hok
    · exact absurd hok (by simp)
    · split at hok
      · exact absurd hok (by simp)
      · cases hok
        rfl

/-- C4: time decoding maps each raw offset through calendar-aware addition
keyed on the declared calendar (defaulting to "standard" when the
attribute is absent), preserving length and input order; and for the
`360_day` calendar, raw value 59 with units "days since 2000-01-01"
lands on 2000-02-30 (day 60 of a 360-day year), which differs from the
standard-calendar result 2000-02-29. -/
theorem C4_calendar_aware :
    (∀ (time : List Int) (units : TimeUnits) (cal : String),
        (num2date time units cal).length = time.length ∧
        ∀ k, k < time.length →
          (num2date time units cal).getD k default =
            calAddDays cal units.epoch (time.getD k 0)) ∧
    (∀ (ds : NCFile) (varName : String) (tx ty : ℚ) (r : List CFDate × List V),
        ds.calendar = none → extract_data ds varName tx ty = .ok r →
        r.1 = num2date ds.time ds.time_units "standard") ∧
    num2date [59] ⟨⟨2000, 1, 1⟩⟩ "360_day" = [⟨2000, 2, 30⟩] ∧
    num2date [59] ⟨⟨2000, 1, 1⟩⟩ "standard" = [⟨2000, 2, 29⟩] ∧
    (⟨2000, 2, 30⟩ : CFDate) ≠ ⟨2000, 2, 29⟩ := by
  refine ⟨?_, ?_, by decide, by decide, by decide⟩
  · intro time units cal
    refine ⟨by simp [num2date], ?_⟩
    intro k hk
    rw [List.getD_eq_getElem _ _ (by simpa [num2date] using hk),
      List.getD_eq_getElem _ _ hk]
    simp [num2date]
  · intro ds varName tx ty r hc hok
    rw [extract_ok_dates ds varName tx ty r hok, hc]
    rfl

/-- Witness for C4: a dataset without a `calendar` attribute is decoded
with the "standard" calendar. -/
theorem C4_calendar_aware_witness :
    (([⟨2021, 1, 1⟩, ⟨2021, 1, 2⟩], [V.num 5, V.num 10]) :
        List CFDate × List V).1 =
      num2date dsDefaultsExample.time dsDefaultsExample.time_units "standard" :=
  C4_calendar_aware.2.1 dsDefaultsExample "rain" 0 0 _ rfl (by decide)

/-- C5: a failure while extracting one source is recorded together with
that source's name and does not stop the remaining sources — the
accumulated series is the concatenation of the successful sources'
rows in processing order, and the error list collects exactly the
failing sources in order; when every source fails the pipeline hands
back an empty series together with the full error list. -/
theorem C5_per_source_error_isolation :
    ∀ (files : List (String × NCFile)) (varName : String) (tx ty : ℚ),
      (runBatch files varName tx ty).1 = (files.map (okRows varName tx ty)).flatten ∧
      (runBatch files varName tx ty).2 = files.filterMap (errEntry varName tx ty) ∧
      ((∀ p ∈ files, ∃ e, extract_data p.2 varName tx ty = .error e) →
        (mainPipeline files varName tx ty).1 = [] ∧
        (mainPipeline files varName tx ty).2 = files.filterMap (errEntry varName tx ty) ∧
        (mainPipeline files varName tx ty).2.length = files.length) := by
  intro files varName tx ty
  have hchar : (runBatch files varName tx ty).1 = (files.map (okRows varName tx ty)).flatten ∧
      (runBatch files varName tx ty).2 = files.filterMap (errEntry varName tx ty) := by
    induction files with
    | nil => exact ⟨rfl, rfl⟩
    | cons p rest ih =>
      obtain ⟨nm, ds⟩ := p
      cases h : extract_data ds varName tx ty with
      | ok r =>
        obtain ⟨dates, vals⟩ := r
        constructor
        · simp only [runBatch, h, List.map_cons, List.flatten_cons, okRows]
          rw [ih.1]
        · simp only [runBatch, h, List.filterMap_cons, errEntry]
          rw [ih.2]
      | error e =>
        constructor
        · simp only [runBatch, h, List.map_cons, List.flatten_cons, okRows]
          rw [ih.1, List.nil_append]
        · simp only [runBatch, h, List.filterMap_cons, errEntry]
          rw [ih.2]
  refine ⟨hchar.1, hchar.2, ?_⟩
  intro hall
  have hempty : (runBatch files varName tx ty).1 = [] := by
    rw [hchar.1]
    rw [List.flatten_eq_nil_iff]
    intro l hl
    rw [List.mem_map] at hl
    obtain ⟨p, hp, rfl⟩ := hl
    obtain ⟨e, he⟩ := hall p hp
    simp [okRows, he]
  have hlen : ∀ (fs : List (String × NCFile)),
      (∀ p ∈ fs, ∃ e, extract_data p.2 varName tx ty = .error e) →
      (fs.filterMap (errEntry varName tx ty)).length = fs.length := by
    intro fs
    induction fs with
    | nil => intro _; rfl
    | cons p rest ih =>
      intro hf
      obtain ⟨e, he⟩ := hf p (by simp)
      rw [List.filterMap_cons]
      simp only [errEntry, he]
      rw [List.length_cons, ih (fun q hq => hf q (by simp [hq]))]
      rfl
  refine ⟨?_, hchar.2, ?_⟩
  · show dropna_all (sort_values (runBatch files varName tx ty).1) = []
    rw [hempty]
    rfl
  · show (runBatch files varName tx ty).2.length = files.length
    rw [hchar.2]
    exact hlen files hall

/-- Witness for C5: a batch of two sources that both lack the
requested variable yields an empty final series and one error entry
per source. -/
theorem C5_per_source_error_isolation_witness :
    (mainPipeline [("a", dsNoVars), ("b", dsNoVars)] "rain" 0 0).1 = [] ∧
    (mainPipeline [("a", dsNoVars), ("b", dsNoVars)] "rain" 0 0).2.length = 2 := by
  have h := (C5_per_source_error_isolation [("a", dsNoVars), ("b", dsNoVars)] "rain" 0 0).2.2
    (by
      intro p hp
      have : p = ("a", dsNoVars) ∨ p = ("b", dsNoVars) := by simpa using hp
      rcases this with rfl | rfl <;> exact ⟨.MissingVariableError "rain", by decide⟩)
  exact ⟨h.1, h.2.2⟩

/-- C9: the NaN-drop step is idempotent — applied to an
already-filtered series it removes nothing further. -/
theorem C9_dropna_idempotent :
    ∀ (rows : List (Option CFDate × V)), dropna_all (dropna_all rows) = dropna_all rows := by
  intro rows
  simp [dropna_all, List.filter_filter]

/-- C10: the generic front-end's final `dropna()` keeps exactly the
rows whose every column is present (a missing timestamp disqualifies a
row even when its value is a number), while the rainfall front-end's
`dropna(subset=['rainfall'])` keeps exactly the rows with a non-NaN
value, retaining rows with missing timestamps; the two pipelines use
the respective filters after the same sort. -/
theorem C10_filter_scope_difference :
    (∀ (rows : List (Option CFDate × V)) (r : Option CFDate × V), r ∈ rows →
        ((r ∈ dropna_all rows ↔ (r.1.isSome = true ∧ r.2.isNaN = false)) ∧
         (r ∈ dropna_value rows ↔ r.2.isNaN = false))) ∧
    dropna_all [((none : Option CFDate), V.num 5)] = [] ∧
    dropna_value [((none : Option CFDate), V.num 5)] = [(none, V.num 5)] ∧
    (∀ (files : List (String × NCFile)) (varName : String) (tx ty : ℚ),
        (mainPipeline files varName tx ty).1 =
          dropna_all (sort_values (runBatch files varName tx ty).1)) ∧
    (∀ (files : List (String × NCFile)) (tx ty : ℚ),
        (mainPipelineRainfall files tx ty).1 =
          dropna_value (sort_values (runBatch files "rainfall_amount" tx ty).1)) := by
  refine ⟨?_, by decide, by decide, fun _ _ _ _ => rfl, fun _ _ _ => rfl⟩
  intro rows r hr
  constructor
  · rw [dropna_all, List.mem_filter]
    simp [hr]
  · rw [dropna_value, List.mem_filter]
    simp [hr]

/-- Witness for C10 at a concrete row with a missing timestamp and a
numeric value: the generic filter drops it, the rainfall filter keeps
it. -/
theorem C10_filter_scope_difference_witness :
    ((none, V.num 5) ∈ dropna_all [((none : Option CFDate), V.num 5)] ↔
      ((none : Option CFDate).isSome = true ∧ (V.num 5).isNaN = false)) ∧
    ((none, V.num 5) ∈ dropna_value [((none : Option CFDate), V.num 5)] ↔
      (V.num 5).isNaN = false) :=
  C10_filter_scope_difference.1 [(none, V.num 5)] (none, V.num 5) (by simp)

section SortProofs

lemma getI_eq_getElem (t : List Nat) (n : Nat) (h : n < t.length) : getI t n = t[n] :=
  List.getD_eq_getElem t 0 h

lemma length_setI (t : List Nat) (i x : Nat) : (setI t i x).length = t.length :=
  List.length_set t i x

lemma getI_setI_self (t : List Nat) (i x : Nat) (h : i < t.length) :
    getI (setI t i x) i = x := by
  simp [getI, setI, List.getD_eq_getElem?_getD, List.getElem?_set_self h]

lemma getI_setI_ne (t : List Nat) (i x k : Nat) (h : i ≠ k) :
    getI (setI t i x) k = getI t k := by
  simp [getI, setI, List.getD_eq_getElem?_getD, List.getElem?_set_ne h]

lemma setI_getI_self (t : List Nat) (i : Nat) : setI t i (getI t i) = t := by
  apply List.ext_getElem (by simp [setI])
  intro n h1 h2
  simp only [setI]
  rw [List.getElem_set]
  split
  · next he => subst he; rw [getI, List.getD_eq_getElem t 0 h2]
  · rfl

lemma length_swpI (t : List Nat) (i j : Nat) : (swpI t i j).length = t.length := by
  simp [swpI, setI]

lemma getI_swpI_right (t : List Nat) (i j : Nat) (hj : j < t.length) :
    getI (swpI t i j) j = getI t i := by
  unfold swpI
  exact getI_setI_self _ _ _ (by rw [length_setI]; exact hj)

lemma getI_swpI_left (t : List Nat) (i j : Nat) (hi : i < t.length) :
    getI (swpI t i j) i = getI t j := by
  by_cases hij : i = j
  · subst hij
    exact getI_swpI_right t i i hi
  · unfold swpI
    rw [getI_setI_ne _ _ _ _ (fun hh => hij hh.symm)]
    exact getI_setI_self _ _ _ hi

lemma getI_swpI_other (t : List Nat) (i j k : Nat) (h1 : k ≠ i) (h2 : k ≠ j) :
    getI (swpI t i j) k = getI t k := by
  unfold swpI
  rw [getI_setI_ne _ _ _ _ (fun hh => h2 hh.symm), getI_setI_ne _ _ _ _ (fun hh => h1 hh.symm)]

lemma cons_set_perm (x : Nat) : ∀ (xs : List Nat) (m : Nat), m < xs.length →
    ((xs.getD m 0) :: xs.set m x).Perm (x :: xs)
  | [], m, h => by simp at h
  | y :: ys, 0, _ => by
    simpa using List.Perm.swap x y ys
  | y :: ys, m + 1, h => by
    have ih := cons_set_perm x ys m (by simpa using h)
    have s1 : List.Perm (ys.getD m 0 :: y :: ys.set m x) (y :: ys.getD m 0 :: ys.set m x) :=
      List.Perm.swap _ _ _
    have s2 : List.Perm (y :: ys.getD m 0 :: ys.set m x) (y :: x :: ys) := ih.cons y
    have s3 : List.Perm (y :: x :: ys) (x :: y :: ys) := List.Perm.swap _ _ _
    have e1 : ((y :: ys).getD (m + 1) 0) :: (y :: ys).set (m + 1) x
        = ys.getD m 0 :: y :: ys.set m x := by simp
    rw [e1]
    exact (s1.trans s2).trans s3

lemma set_set_swap_perm : ∀ (t : List Nat) (i j : Nat), i < t.length → j < t.length →
    ((t.set i (t.getD j 0)).set j (t.getD i 0)).Perm t
  | [], i, j, hi, _ => by simp at hi
  | x :: xs, 0, 0, _, _ => by simp
  | x :: xs, 0, m + 1, _, hj => by
    simpa using cons_set_perm x xs m (by simpa using hj)
  | x :: xs, m + 1, 0, hi, _ => by
    simpa using cons_set_perm x xs m (by simpa using hi)
  | x :: xs, a + 1, b + 1, hi, hj => by
    have ih := set_set_swap_perm xs a b (by simpa using hi) (by simpa using hj)
    simpa using ih.cons x

lemma perm_of_swap_two (Lp L : List Nat) (p q : Nat)
    (hlen : Lp.length = L.length) (hp : p < L.length) (hq : q < L.length)
    (h1 : getI Lp p = getI L q) (h2 : getI Lp q = getI L p)
    (h3 : ∀ m, m ≠ p → m ≠ q → getI Lp m = getI L m) : Lp.Perm L := by
  have he : Lp = (L.set p (L.getD q 0)).set q (L.getD p 0) := by
    apply List.ext_getElem (by simp [hlen])
    intro n hn1 hn2
    rw [List.getElem_set]
    by_cases hnq : q = n
    · subst hnq
      rw [if_pos rfl, ← getI_eq_getElem Lp q hn1, h2, getI_eq_getElem L p hp]
      exact (getI_eq_getElem L p hp).symm
    · rw [if_neg hnq, List.getElem_set]
      by_cases hnp : p = n
      · subst hnp
        rw [if_pos rfl, ← getI_eq_getElem Lp p hn1, h1, getI_eq_getElem L q hq]
        exact (getI_eq_getElem L q hq).symm
      · rw [if_neg hnp, ← getI_eq_getElem L n (by simpa [hlen] using hn1),
          ← getI_eq_getElem Lp n hn1]
        exact h3 n (fun hh => hnp hh.symm) (fun hh => hnq hh.symm)
  rw [he]
  exact set_set_swap_perm L p q hp hq

lemma swpI_perm (t : List Nat) (i j : Nat) (hi : i < t.length) (hj : j < t.length) :
    (swpI t i j).Perm t :=
  set_set_swap_perm t i j hi hj

lemma segIdx_length (t : List Nat) (a len : Nat) : (segIdx t a len).length = len := by
  simp [segIdx]

lemma segIdx_getD (t : List Nat) (a len m : Nat) (h : m < len) :
    (segIdx t a len).getD m 0 = getI t (a + m) := by
  rw [List.getD_eq_getElem _ _ (by simpa [segIdx] using h)]
  simp [segIdx]

lemma segIdx_succ_left (t : List Nat) (a len : Nat) :
    segIdx t a (len + 1) = getI t a :: segIdx t (a + 1) len := by
  simp [segIdx, List.range'_succ]

lemma segIdx_append (t : List Nat) (a m n : Nat) :
    segIdx t a (m + n) = segIdx t a m ++ segIdx t (a + m) n := by
  unfold segIdx
  rw [← List.map_append, List.range'_append_1, Nat.add_comm n m]

lemma segIdx_succ_right (t : List Nat) (a len : Nat) :
    segIdx t a (len + 1) = segIdx t a len ++ [getI t (a + len)] := by
  rw [segIdx_append t a len 1]
  rfl

lemma segIdx_congr (tp t : List Nat) (a len : Nat)
    (h : ∀ k, a ≤ k → k < a + len → getI tp k = getI t k) :
    segIdx tp a len = segIdx t a len :=
  List.map_congr_left (fun k hk => by
    rw [List.mem_range'_1] at hk
    exact h k hk.1 hk.2)

lemma segPerm_mono (tp t : List Nat) (a lenA c lenC : Nat)
    (hac : a ≤ c) (hsub : c + lenC ≤ a + lenA)
    (hin : (segIdx tp c lenC).Perm (segIdx t c lenC))
    (hout : ∀ k, k < c ∨ c + lenC ≤ k → getI tp k = getI t k) :
    (segIdx tp a lenA).Perm (segIdx t a lenA) := by
  have hc : a + (c - a) = c := by omega
  obtain ⟨m3, hm3⟩ : ∃ m3, lenA = (c - a) + (lenC + m3) :=
    ⟨lenA - (c - a) - lenC, by omega⟩
  subst hm3
  rw [segIdx_append tp a (c - a), segIdx_append tp (a + (c - a)) lenC,
      segIdx_append t a (c - a), segIdx_append t (a + (c - a)) lenC, hc]
  refine List.Perm.append (List.Perm.of_eq ?_) (List.Perm.append hin (List.Perm.of_eq ?_))
  · exact segIdx_congr _ _ _ _ (fun k hk1 hk2 => hout k (Or.inl (by omega)))
  · exact segIdx_congr _ _ _ _ (fun k hk1 hk2 => hout k (Or.inr (by omega)))

end SortProofs


/-! ## Correctness of the embedded numpy introsort and the pandas sort -/

section PhaseAB

variable {K : Type}

lemma scanR_spec [LinearOrder K] (v : Nat → K) (vp : K) (t : List Nat) :
    ∀ fuel pi s, pi < s → ¬ v (getI t s) < vp → s - pi ≤ fuel →
      pi < scanR v vp t pi fuel ∧ scanR v vp t pi fuel ≤ s ∧
      ¬ v (getI t (scanR v vp t pi fuel)) < vp ∧
      ∀ k, pi < k → k < scanR v vp t pi fuel → v (getI t k) < vp
  | 0, pi, s, h1, _, h3 => absurd h1 (by omega)
  | fuel + 1, pi, s, h1, h2, h3 => by
    by_cases hc : v (getI t (pi + 1)) < vp
    · have hne : s ≠ pi + 1 := fun he => h2 (he ▸ hc)
      have h1s : pi + 1 < s := by omega
      have ih := scanR_spec v vp t fuel (pi + 1) s h1s h2 (by omega)
      simp only [scanR, if_pos hc]
      refine ⟨by omega, ih.2.1, ih.2.2.1, fun k hk1 hk2 => ?_⟩
      rcases Nat.lt_or_ge k (pi + 1) with hlt | hge
      · omega
      · rcases Nat.eq_or_lt_of_le hge with he | hlt2
        · exact he ▸ hc
        · exact ih.2.2.2 k hlt2 hk2
    · simp only [scanR, if_neg hc]
      exact ⟨Nat.lt_succ_self pi, by omega, hc, fun k hk1 hk2 => by omega⟩

lemma scanL_spec [LinearOrder K] (v : Nat → K) (vp : K) (t : List Nat) :
    ∀ fuel pj s, s < pj → ¬ vp < v (getI t s) → pj - s ≤ fuel →
      s ≤ scanL v vp t pj fuel ∧ scanL v vp t pj fuel < pj ∧
      ¬ vp < v (getI t (scanL v vp t pj fuel)) ∧
      ∀ k, scanL v vp t pj fuel < k → k < pj → vp < v (getI t k)
  | 0, pj, s, h1, _, h3 => absurd h1 (by omega)
  | fuel + 1, pj, s, h1, h2, h3 => by
    by_cases hc : vp < v (getI t (pj - 1))
    · have hne : s ≠ pj - 1 := fun he => h2 (he ▸ hc)
      have h1s : s < pj - 1 := by omega
      have ih := scanL_spec v vp t fuel (pj - 1) s h1s h2 (by omega)
      simp only [scanL, if_pos hc]
      refine ⟨ih.1, by omega, ih.2.2.1, fun k hk1 hk2 => ?_⟩
      rcases Nat.lt_or_ge k (pj - 1) with hlt | hge
      · exact ih.2.2.2 k hk1 hlt
      · have : k = pj - 1 := by omega
        exact this ▸ hc
    · simp only [scanL, if_neg hc]
      exact ⟨by omega, by omega, hc, fun k hk1 hk2 => by omega⟩

lemma segIdx_full (t : List Nat) : segIdx t 0 t.length = t := by
  apply List.ext_getElem (by simp [segIdx])
  intro n h1 h2
  rw [← List.getD_eq_getElem (segIdx t 0 t.length) 0 h1,
    segIdx_getD t 0 t.length n (by simpa [segIdx] using h1)]
  simpa using getI_eq_getElem t n h2

lemma perm_of_local (tf t : List Nat) (a len : Nat) (hlen : tf.length = t.length)
    (hout : ∀ k, k < a ∨ a + len ≤ k → getI tf k = getI t k)
    (hbound : a + len ≤ t.length)
    (hseg : (segIdx tf a len).Perm (segIdx t a len)) : tf.Perm t := by
  have h := segPerm_mono tf t 0 t.length a len (Nat.zero_le a) (by omega) hseg hout
  rwa [show segIdx tf 0 t.length = tf from by rw [← hlen]; exact segIdx_full tf,
    segIdx_full t] at h

lemma segPerm_of_perm (tf t : List Nat) (a len : Nat) (hlen : tf.length = t.length)
    (hout : ∀ k, k < a ∨ a + len ≤ k → getI tf k = getI t k)
    (hbound : a + len ≤ t.length)
    (hperm : tf.Perm t) : (segIdx tf a len).Perm (segIdx t a len) := by
  obtain ⟨m3, hm3⟩ : ∃ m3, t.length = a + (len + m3) := ⟨t.length - a - len, by omega⟩
  have ht : segIdx t 0 (a + (len + m3)) = t := by rw [← hm3]; exact segIdx_full t
  have htf : segIdx tf 0 (a + (len + m3)) = tf := by
    rw [← hm3, ← hlen]; exact segIdx_full tf
  rw [segIdx_append, segIdx_append, Nat.zero_add] at ht htf
  have hA : segIdx tf 0 a = segIdx t 0 a :=
    segIdx_congr _ _ _ _ (fun k h1 h2 => hout k (Or.inl (by omega)))
  have hB : segIdx tf (a + len) m3 = segIdx t (a + len) m3 :=
    segIdx_congr _ _ _ _ (fun k h1 h2 => hout k (Or.inr (by omega)))
  rw [hA, hB] at htf
  have h2 : (segIdx t 0 a ++ (segIdx tf a len ++ segIdx t (a + len) m3)).Perm
      (segIdx t 0 a ++ (segIdx t a len ++ segIdx t (a + len) m3)) := by
    rw [htf, ht]
    exact hperm
  exact (List.perm_append_right_iff _).mp ((List.perm_append_left_iff _).mp h2)

lemma segKeys_forall (v : Nat → K) (t : List Nat) (a len : Nat) (P : K → Prop) :
    (∀ x ∈ segKeys v t a len, P x) ↔ ∀ k, a ≤ k → k < a + len → P (v (getI t k)) := by
  simp only [segKeys, segIdx, List.map_map, List.mem_map, List.mem_range'_1]
  constructor
  · intro h k hk1 hk2
    exact h _ ⟨k, ⟨hk1, hk2⟩, rfl⟩
  · rintro h x ⟨k, ⟨hk1, hk2⟩, rfl⟩
    exact h k hk1 hk2

lemma segKeys_perm (v : Nat → K) (tf t : List Nat) (a len : Nat)
    (h : (segIdx tf a len).Perm (segIdx t a len)) :
    (segKeys v tf a len).Perm (segKeys v t a len) := h.map v

lemma segBound_transfer (v : Nat → K) (tf t : List Nat) (a len : Nat) (P : K → Prop)
    (hseg : (segIdx tf a len).Perm (segIdx t a len))
    (hb : ∀ k, a ≤ k → k < a + len → P (v (getI t k))) :
    ∀ k, a ≤ k → k < a + len → P (v (getI tf k)) := by
  have h1 : ∀ x ∈ segKeys v t a len, P x := (segKeys_forall v t a len P).mpr hb
  have h2 : ∀ x ∈ segKeys v tf a len, P x := fun x hx =>
    h1 x ((segKeys_perm v tf t a len hseg).mem_iff.mp hx)
  exact (segKeys_forall v tf a len P).mp h2

end PhaseAB

section PhaseC

variable {K : Type}

lemma condSwap_spec [LinearOrder K] (v : Nat → K) (t tc : List Nat) (p q : Nat)
    (hp : p < t.length) (hq : q < t.length) (hpq : p ≠ q)
    (htc : tc = if v (getI t q) < v (getI t p) then swpI t q p else t) :
    tc.length = t.length ∧ tc.Perm t ∧
    (∀ k, k ≠ p → k ≠ q → getI tc k = getI t k) ∧
    v (getI tc p) = min (v (getI t p)) (v (getI t q)) ∧
    v (getI tc q) = max (v (getI t p)) (v (getI t q)) := by
  by_cases hc : v (getI t q) < v (getI t p)
  · rw [htc, if_pos hc]
    refine ⟨length_swpI t q p, swpI_perm t q p hq hp, ?_, ?_, ?_⟩
    · intro k hk1 hk2
      exact getI_swpI_other t q p k hk2 hk1
    · rw [getI_swpI_right t q p hp, min_eq_right (le_of_lt hc)]
    · rw [getI_swpI_left t q p hq, max_eq_left (le_of_lt hc)]
  · rw [htc, if_neg hc]
    push_neg at hc
    exact ⟨rfl, List.Perm.refl t, fun k h1 h2 => rfl,
      (min_eq_left hc).symm, (max_eq_right hc).symm⟩

lemma partSetup_spec [LinearOrder K] (v : Nat → K) (t : List Nat) (pl pr : Nat)
    (hgap : 15 < pr - pl) (hpr : pr < t.length) :
    (partSetup v t pl pr).1.length = t.length ∧
    (partSetup v t pl pr).1.Perm t ∧
    (∀ k, k < pl ∨ pr < k → getI (partSetup v t pl pr).1 k = getI t k) ∧
    v (getI (partSetup v t pl pr).1 pl) ≤ (partSetup v t pl pr).2 ∧
    v (getI (partSetup v t pl pr).1 (pr - 1)) = (partSetup v t pl pr).2 ∧
    (partSetup v t pl pr).2 ≤ v (getI (partSetup v t pl pr).1 pr) := by
  set pm := pl + (pr - pl) / 2 with hpm
  have hpm1 : pl < pm := by omega
  have hpm2 : pm < pr - 1 := by omega
  have hLpl : pl < t.length := by omega
  have hLpm : pm < t.length := by omega
  have hLpr1 : pr - 1 < t.length := by omega
  set t1 := if v (getI t pm) < v (getI t pl) then swpI t pm pl else t with ht1
  set t2 := if v (getI t1 pr) < v (getI t1 pm) then swpI t1 pr pm else t1 with ht2
  set t3 := if v (getI t2 pm) < v (getI t2 pl) then swpI t2 pm pl else t2 with ht3
  have h1 := condSwap_spec v t t1 pl pm hLpl hLpm (by omega) ht1
  have h2 := condSwap_spec v t1 t2 pm pr (by rw [h1.1]; exact hLpm)
    (by rw [h1.1]; exact hpr) (by omega) ht2
  have h3 := condSwap_spec v t2 t3 pl pm (by rw [h2.1, h1.1]; exact hLpl)
    (by rw [h2.1, h1.1]; exact hLpm) (by omega) ht3
  have hunf : partSetup v t pl pr = (swpI t3 pm (pr - 1), v (getI t3 pm)) := rfl
  rw [hunf]
  -- key ordering facts at the three probe positions of t3
  have hab1 : v (getI t1 pl) ≤ v (getI t1 pm) := by
    rw [h1.2.2.2.1, h1.2.2.2.2]; exact min_le_max
  have hbc2 : v (getI t2 pm) ≤ v (getI t2 pr) := by
    rw [h2.2.2.2.1, h2.2.2.2.2]; exact min_le_max
  have hl2 : getI t2 pl = getI t1 pl := h2.2.2.1 pl (by omega) (by omega)
  have hac2 : v (getI t2 pl) ≤ v (getI t2 pr) := by
    rw [hl2, h2.2.2.2.2]
    exact le_trans hab1 (le_max_left _ _)
  have hab3 : v (getI t3 pl) ≤ v (getI t3 pm) := by
    rw [h3.2.2.2.1, h3.2.2.2.2]; exact min_le_max
  have hr3 : getI t3 pr = getI t2 pr := h3.2.2.1 pr (by omega) (by omega)
  have hbc3 : v (getI t3 pm) ≤ v (getI t3 pr) := by
    rw [h3.2.2.2.2, hr3]
    exact max_le hac2 hbc2
  have hlen3 : t3.length = t.length := by rw [h3.1, h2.1, h1.1]
  have hLpm3 : pm < t3.length := by omega
  have hLpr13 : pr - 1 < t3.length := by omega
  refine ⟨?_, ?_, ?_, ?_, ?_, ?_⟩
  · rw [length_swpI, hlen3]
  · exact ((swpI_perm t3 pm (pr - 1) hLpm3 hLpr13).trans h3.2.1).trans
      (h2.2.1.trans h1.2.1)
  · intro k hk
    rw [getI_swpI_other t3 pm (pr - 1) k (by omega) (by omega),
      h3.2.2.1 k (by omega) (by omega), h2.2.2.1 k (by omega) (by omega),
      h1.2.2.1 k (by omega) (by omega)]
  · rw [getI_swpI_other t3 pm (pr - 1) pl (by omega) (by omega)]
    exact hab3
  · rw [getI_swpI_right t3 pm (pr - 1) hLpr13]
  · rw [getI_swpI_other t3 pm (pr - 1) pr (by omega) (by omega)]
    exact hbc3

lemma partLoop_spec [LinearOrder K] (v : Nat → K) (vp : K) (pl pr : Nat) :
    ∀ fuel t pi pj, pl ≤ pi → pi < pj → pj ≤ pr - 1 → pr < t.length →
      (∀ k, pl ≤ k → k ≤ pi → v (getI t k) ≤ vp) →
      (∀ k, pj ≤ k → k ≤ pr - 1 → vp ≤ v (getI t k)) →
      pj - pi ≤ fuel →
      (partLoop v vp t pi pj pr fuel).1.length = t.length ∧
      (∀ k, k ≤ pi ∨ pj ≤ k → getI (partLoop v vp t pi pj pr fuel).1 k = getI t k) ∧
      (partLoop v vp t pi pj pr fuel).1.Perm t ∧
      (pi < (partLoop v vp t pi pj pr fuel).2 ∧ (partLoop v vp t pi pj pr fuel).2 ≤ pj) ∧
      (∀ k, pl ≤ k → k < (partLoop v vp t pi pj pr fuel).2 →
        v (getI (partLoop v vp t pi pj pr fuel).1 k) ≤ vp) ∧
      (∀ k, (partLoop v vp t pi pj pr fuel).2 ≤ k → k ≤ pr - 1 →
        vp ≤ v (getI (partLoop v vp t pi pj pr fuel).1 k))
  | 0, t, pi, pj, h1, h2, h3, h4, hA2, hA3, hfuel => absurd h2 (by omega)
  | fuel + 1, t, pi, pj, h1, h2, h3, h4, hA2, hA3, hfuel => by
    have hsR := scanR_spec v vp t pr pi pj h2
      (not_lt.mpr (hA3 pj (le_refl pj) h3)) (by omega)
    have hsL := scanL_spec v vp t pr pj pi h2
      (not_lt.mpr (hA2 pi h1 (le_refl pi))) (by omega)
    simp only [partLoop]
    by_cases hcross : scanL v vp t pj pr ≤ scanR v vp t pi pr
    · rw [if_pos hcross]
      refine ⟨rfl, fun k hk => rfl, List.Perm.refl t, ⟨hsR.1, hsR.2.1⟩, ?_, ?_⟩
      · intro k hk1 hk2
        rcases Nat.lt_or_ge k (pi + 1) with hlt | hge
        · exact hA2 k hk1 (by omega)
        · exact le_of_lt (hsR.2.2.2 k (by omega) hk2)
      · intro k hk1 hk2
        rcases Nat.eq_or_lt_of_le hk1 with he | hlt
        · rw [← he]; exact not_lt.mp hsR.2.2.1
        · rcases Nat.lt_or_ge k pj with hkj | hge
          · exact le_of_lt (hsL.2.2.2 k (by omega) hkj)
          · exact hA3 k hge hk2
    · rw [if_neg hcross]
      push_neg at hcross
      have hi1L : scanR v vp t pi pr < t.length := by
        have := hsR.2.1; omega
      have hj1L : scanL v vp t pj pr < t.length := by
        have := hsL.2.1; omega
      have hA2n : ∀ k, pl ≤ k → k ≤ scanR v vp t pi pr →
          v (getI (swpI t (scanR v vp t pi pr) (scanL v vp t pj pr)) k) ≤ vp := by
        intro k hk1 hk2
        rcases Nat.eq_or_lt_of_le hk2 with he | hlt
        · rw [he, getI_swpI_left t _ _ hi1L]
          exact not_lt.mp hsL.2.2.1
        · rw [getI_swpI_other t _ _ k (by omega) (by omega)]
          rcases Nat.lt_or_ge k (pi + 1) with hlt2 | hge
          · exact hA2 k hk1 (by omega)
          · exact le_of_lt (hsR.2.2.2 k (by omega) hlt)
      have hA3n : ∀ k, scanL v vp t pj pr ≤ k → k ≤ pr - 1 →
          vp ≤ v (getI (swpI t (scanR v vp t pi pr) (scanL v vp t pj pr)) k) := by
        intro k hk1 hk2
        rcases Nat.eq_or_lt_of_le hk1 with he | hlt
        · rw [← he, getI_swpI_right t _ _ hj1L]
          exact not_lt.mp hsR.2.2.1
        · rw [getI_swpI_other t _ _ k (by omega) (by omega)]
          rcases Nat.lt_or_ge k pj with hkj | hge
          · exact le_of_lt (hsL.2.2.2 k hlt hkj)
          · exact hA3 k hge hk2
      have ih := partLoop_spec v vp pl pr fuel
        (swpI t (scanR v vp t pi pr) (scanL v vp t pj pr))
        (scanR v vp t pi pr) (scanL v vp t pj pr)
        (by omega) hcross (by have := hsL.2.1; omega)
        (by rw [length_swpI]; exact h4) hA2n hA3n
        (by have := hsR.1; have := hsL.2.1; omega)
      refine ⟨ih.1.trans (length_swpI t _ _), ?_, ih.2.2.1.trans (swpI_perm t _ _ hi1L hj1L),
        ⟨by have := ih.2.2.2.1.1; have := hsR.1; omega,
         by have := ih.2.2.2.1.2; have := hsL.2.1; omega⟩,
        ih.2.2.2.2.1, ih.2.2.2.2.2⟩
      intro k hk
      have hk1 : k ≤ scanR v vp t pi pr ∨ scanL v vp t pj pr ≤ k := by
        rcases hk with hk | hk
        · exact Or.inl (by have := hsR.1; omega)
        · exact Or.inr (by have := hsL.2.1; omega)
      rw [ih.2.1 k hk1, getI_swpI_other t _ _ k (by have := hsR.1; have := hsL.2.1; omega)
        (by have := hsR.1; have := hsL.2.1; omega)]

lemma partStep_spec [LinearOrder K] (v : Nat → K) (t : List Nat) (pl pr : Nat)
    (hgap : 15 < pr - pl) (hpr : pr < t.length) :
    (partStep v t pl pr).1.length = t.length ∧
    (∀ k, k < pl ∨ pr < k → getI (partStep v t pl pr).1 k = getI t k) ∧
    (partStep v t pl pr).1.Perm t ∧
    (pl < (partStep v t pl pr).2 ∧ (partStep v t pl pr).2 < pr) ∧
    (∀ k, pl ≤ k → k < (partStep v t pl pr).2 →
      v (getI (partStep v t pl pr).1 k) ≤
        v (getI (partStep v t pl pr).1 (partStep v t pl pr).2)) ∧
    (∀ k, (partStep v t pl pr).2 < k → k ≤ pr →
      v (getI (partStep v t pl pr).1 (partStep v t pl pr).2) ≤
        v (getI (partStep v t pl pr).1 k)) := by
  set t1 := (partSetup v t pl pr).1 with ht1
  set vp := (partSetup v t pl pr).2 with hvp
  have hsetup := partSetup_spec v t pl pr hgap hpr
  rw [← ht1, ← hvp] at hsetup
  have hloop := partLoop_spec v vp pl pr pr t1 pl (pr - 1) (le_refl pl) (by omega)
    (le_refl _) (by rw [hsetup.1]; exact hpr)
    (by
      intro k hk1 hk2
      have : k = pl := by omega
      rw [this]; exact hsetup.2.2.2.1)
    (by
      intro k hk1 hk2
      have : k = pr - 1 := by omega
      rw [this, hsetup.2.2.2.2.1])
    (by omega)
  set PL := partLoop v vp t1 pl (pr - 1) pr pr with hPL
  have hunf : partStep v t pl pr = (swpI PL.1 PL.2 (pr - 1), PL.2) := rfl
  rw [hunf]
  have hlenPL : PL.1.length = t.length := hloop.1.trans hsetup.1
  have hpiv1 : pl < PL.2 := hloop.2.2.2.1.1
  have hpiv2 : PL.2 ≤ pr - 1 := hloop.2.2.2.1.2
  have hL2 : PL.2 < PL.1.length := by omega
  have hLr1 : pr - 1 < PL.1.length := by omega
  have hpivkey : getI (swpI PL.1 PL.2 (pr - 1)) PL.2 = getI PL.1 (pr - 1) :=
    getI_swpI_left PL.1 PL.2 (pr - 1) hL2
  have hpr1key : getI PL.1 (pr - 1) = getI t1 (pr - 1) :=
    hloop.2.1 (pr - 1) (Or.inr (le_refl _))
  have hvpkey : v (getI (swpI PL.1 PL.2 (pr - 1)) PL.2) = vp := by
    rw [hpivkey, hpr1key, hsetup.2.2.2.2.1]
  refine ⟨by rw [length_swpI, hlenPL], ?_, ?_, ⟨hpiv1, by omega⟩, ?_, ?_⟩
  · intro k hk
    rw [getI_swpI_other PL.1 PL.2 (pr - 1) k (by omega) (by omega),
      hloop.2.1 k (by omega), hsetup.2.2.1 k hk]
  · exact ((swpI_perm PL.1 PL.2 (pr - 1) hL2 hLr1).trans hloop.2.2.1).trans hsetup.2.1
  · intro k hk1 hk2
    rw [hvpkey, getI_swpI_other PL.1 PL.2 (pr - 1) k (by omega) (by omega)]
    exact hloop.2.2.2.2.1 k hk1 hk2
  · intro k hk1 hk2
    rw [hvpkey]
    by_cases hk3 : k = pr - 1
    · rw [hk3, getI_swpI_right PL.1 PL.2 (pr - 1) hLr1]
      exact hloop.2.2.2.2.2 PL.2 (le_refl _) hpiv2
    · by_cases hk4 : k = pr
      · rw [getI_swpI_other PL.1 PL.2 (pr - 1) k (by omega) (by omega), hk4,
          hloop.2.1 pr (Or.inr (by omega))]
        exact hsetup.2.2.2.2.2
      · rw [getI_swpI_other PL.1 PL.2 (pr - 1) k (by omega) (by omega)]
        exact hloop.2.2.2.2.2 k (by omega) (by omega)

end PhaseC

section PhaseD

variable {K : Type}

lemma segKeys_length (v : Nat → K) (t : List Nat) (a len : Nat) :
    (segKeys v t a len).length = len := by simp [segKeys, segIdx]

lemma pairwise_range'_iff {S : Nat → Nat → Prop} (a len : Nat) :
    (List.range' a len).Pairwise S ↔
      ∀ i j, a ≤ i → i < j → j < a + len → S i j := by
  rw [List.pairwise_iff_getElem]
  simp only [List.length_range', List.getElem_range', one_mul]
  constructor
  · intro h i j hi hij hj
    have e := h (i - a) (j - a) (by omega) (by omega) (by omega)
    have e1 : a + (i - a) = i := by omega
    have e2 : a + (j - a) = j := by omega
    rwa [e1, e2] at e
  · intro h i j hi hj hij
    exact h (a + i) (a + j) (by omega) (by omega) (by omega)

lemma pairwise_segKeys_iff {R : K → K → Prop} (v : Nat → K) (t : List Nat) (a len : Nat) :
    (segKeys v t a len).Pairwise R ↔
      ∀ i j, a ≤ i → i < j → j < a + len → R (v (getI t i)) (v (getI t j)) := by
  unfold segKeys segIdx
  rw [List.pairwise_map, List.pairwise_map, pairwise_range'_iff]

lemma insShift_spec [LinearOrder K] (v : Nat → K) (vp : K) (pl : Nat) :
    ∀ fuel t pj, pl ≤ pj → pj < t.length → pj - pl ≤ fuel →
      (insShift v vp t pl pj fuel).1.length = t.length ∧
      (pl ≤ (insShift v vp t pl pj fuel).2 ∧ (insShift v vp t pl pj fuel).2 ≤ pj) ∧
      (∀ k, k < (insShift v vp t pl pj fuel).2 ∨ pj < k →
        getI (insShift v vp t pl pj fuel).1 k = getI t k) ∧
      (∀ k, (insShift v vp t pl pj fuel).2 < k → k ≤ pj →
        getI (insShift v vp t pl pj fuel).1 k = getI t (k - 1)) ∧
      (∀ k, (insShift v vp t pl pj fuel).2 < k → k ≤ pj → vp < v (getI t (k - 1))) ∧
      ((insShift v vp t pl pj fuel).2 = pl ∨
        ¬ vp < v (getI t ((insShift v vp t pl pj fuel).2 - 1)))
  | 0, t, pj, h1, h2, h3 => by
    have hpj : pj = pl := by omega
    exact ⟨rfl, ⟨le_of_eq hpj.symm, le_refl pj⟩, fun k hk => rfl,
      fun k hk1 hk2 => absurd hk2 (not_le.mpr hk1),
      fun k hk1 hk2 => absurd hk2 (not_le.mpr hk1), Or.inl hpj⟩
  | fuel + 1, t, pj, h1, h2, h3 => by
    have heq : insShift v vp t pl pj (fuel + 1) =
        if pl < pj ∧ vp < v (getI t (pj - 1)) then
          insShift v vp (setI t pj (getI t (pj - 1))) pl (pj - 1) fuel
        else (t, pj) := rfl
    rw [heq]
    by_cases hc : pl < pj ∧ vp < v (getI t (pj - 1))
    · rw [if_pos hc]
      have hlen1 : (setI t pj (getI t (pj - 1))).length = t.length := length_setI t pj _
      have ih := insShift_spec v vp pl fuel (setI t pj (getI t (pj - 1))) (pj - 1)
        (by omega) (by omega) (by omega)
      obtain ⟨il, ⟨ib1, ib2⟩, i3, i4, i5, i6⟩ := ih
      refine ⟨il.trans hlen1, ⟨ib1, by omega⟩, ?_, ?_, ?_, ?_⟩
      · intro k hk
        rcases hk with hk | hk
        · rw [i3 k (Or.inl hk), getI_setI_ne t pj _ k (by omega)]
        · rw [i3 k (Or.inr (by omega)), getI_setI_ne t pj _ k (by omega)]
      · intro k hk1 hk2
        by_cases hk3 : k = pj
        · rw [hk3, i3 pj (Or.inr (by omega)), getI_setI_self t pj _ h2]
        · rw [i4 k hk1 (by omega), getI_setI_ne t pj _ (k - 1) (by omega)]
      · intro k hk1 hk2
        by_cases hk3 : k = pj
        · rw [hk3]; exact hc.2
        · have := i5 k hk1 (by omega)
          rwa [getI_setI_ne t pj _ (k - 1) (by omega)] at this
      · rcases i6 with h6 | h6
        · exact Or.inl h6
        · refine Or.inr ?_
          rwa [getI_setI_ne t pj _ _ (by omega)] at h6
    · rw [if_neg hc]
      rcases Decidable.not_and_iff_or_not.mp hc with h6 | h6
      · exact ⟨rfl, ⟨by omega, le_refl pj⟩, fun k hk => rfl,
          fun k hk1 hk2 => by omega, fun k hk1 hk2 => by omega, Or.inl (by omega)⟩
      · exact ⟨rfl, ⟨h1, le_refl pj⟩, fun k hk => rfl,
          fun k hk1 hk2 => by omega, fun k hk1 hk2 => by omega, Or.inr h6⟩

lemma insStep_spec [LinearOrder K] (v : Nat → K) (t : List Nat) (pl pi : Nat) (tn : List Nat)
    (h1 : pl < pi) (h2 : pi < t.length)
    (hsorted : (segKeys v t pl (pi - pl)).Pairwise (· ≤ ·))
    (htn : tn = setI (insShift v (v (getI t pi)) t pl pi pi).1
      (insShift v (v (getI t pi)) t pl pi pi).2 (getI t pi)) :
    tn.length = t.length ∧
    (∀ k, k < pl ∨ pi < k → getI tn k = getI t k) ∧
    tn.Perm t ∧
    (segKeys v tn pl (pi + 1 - pl)).Pairwise (· ≤ ·) := by
  have hIS := insShift_spec v (v (getI t pi)) pl pi t pi (le_of_lt h1) h2 (by omega)
  obtain ⟨il, ⟨ib1, ib2⟩, i3, i4, i5, i6⟩ := hIS
  set r := (insShift v (v (getI t pi)) t pl pi pi).2 with hr
  set t1 := (insShift v (v (getI t pi)) t pl pi pi).1 with hT1
  have hrlen : r < t1.length := by omega
  have hlen : tn.length = t.length := by rw [htn, length_setI, il]
  have P1 : ∀ k, k < r → getI tn k = getI t k := by
    intro k hk
    rw [htn, getI_setI_ne t1 r _ k (by omega), i3 k (Or.inl hk)]
  have P2 : getI tn r = getI t pi := by
    rw [htn, getI_setI_self t1 r _ hrlen]
  have P3 : ∀ k, r < k → k ≤ pi → getI tn k = getI t (k - 1) := by
    intro k hk1 hk2
    rw [htn, getI_setI_ne t1 r _ k (by omega), i4 k hk1 hk2]
  have Pout : ∀ k, k < pl ∨ pi < k → getI tn k = getI t k := by
    intro k hk
    rcases hk with hk | hk
    · exact P1 k (by omega)
    · rw [htn, getI_setI_ne t1 r _ k (by omega), i3 k (Or.inr hk)]
  have hs := (pairwise_segKeys_iff v t pl (pi - pl)).mp hsorted
  have hAle : ∀ k, pl ≤ k → k < r → v (getI t k) ≤ v (getI t pi) := by
    intro k hk1 hk2
    rcases i6 with h6 | h6
    · omega
    · have hstop : v (getI t (r - 1)) ≤ v (getI t pi) := not_lt.mp h6
      by_cases hk3 : k = r - 1
      · rw [hk3]; exact hstop
      · exact le_trans (hs k (r - 1) hk1 (by omega) (by omega)) hstop
  have hBgt : ∀ k, r ≤ k → k < pi → v (getI t pi) < v (getI t k) := by
    intro k hk1 hk2
    have := i5 (k + 1) (by omega) (by omega)
    simpa using this
  refine ⟨hlen, Pout, ?_, ?_⟩
  · -- permutation via the rotation of [r, pi]
    have etail : segIdx tn (r + 1) (pi - r) = segIdx t r (pi - r) := by
      apply List.ext_getElem (by simp [segIdx_length])
      intro m hm1 hm2
      have hm : m < pi - r := by simpa [segIdx_length] using hm1
      rw [← List.getD_eq_getElem _ 0 hm1, ← List.getD_eq_getElem _ 0 hm2,
        segIdx_getD _ _ _ m (by omega), segIdx_getD _ _ _ m (by omega),
        P3 (r + 1 + m) (by omega) (by omega)]
      congr 1
      omega
    have e1 : segIdx tn r (pi - r + 1) = getI t pi :: segIdx t r (pi - r) := by
      rw [segIdx_succ_left, P2, etail]
    have e2 : segIdx t r (pi - r + 1) = segIdx t r (pi - r) ++ [getI t pi] := by
      rw [segIdx_succ_right]
      have : r + (pi - r) = pi := by omega
      rw [this]
    have hseg : (segIdx tn r (pi - r + 1)).Perm (segIdx t r (pi - r + 1)) := by
      rw [e1, e2]
      exact @List.perm_append_comm _ [getI t pi] (segIdx t r (pi - r))
    exact perm_of_local tn t r (pi - r + 1) hlen
      (fun k hk => by
        rcases hk with hk | hk
        · exact P1 k hk
        · exact Pout k (Or.inr (by omega)))
      (by omega) hseg
  · rw [pairwise_segKeys_iff]
    intro i j hi hij hj
    by_cases hir : i < r
    · have ei : getI tn i = getI t i := P1 i hir
      by_cases hjr : j < r
      · rw [ei, P1 j hjr]
        exact hs i j hi hij (by omega)
      · by_cases hjr2 : j = r
        · rw [ei, hjr2, P2]
          exact hAle i hi hir
        · rw [ei, P3 j (by omega) (by omega)]
          exact hs i (j - 1) hi (by omega) (by omega)
    · by_cases hir2 : i = r
      · rw [hir2, P2, P3 j (by omega) (by omega)]
        exact le_of_lt (hBgt (j - 1) (by omega) (by omega))
      · rw [P3 i (by omega) (by omega), P3 j (by omega) (by omega)]
        exact hs (i - 1) (j - 1) (by omega) (by omega) (by omega)

lemma insLoop_spec [LinearOrder K] (v : Nat → K) (pl pr : Nat) :
    ∀ fuel t pi, pl < pi → pi ≤ pr + 1 → pr < t.length → pr + 1 - pi < fuel →
      (segKeys v t pl (pi - pl)).Pairwise (· ≤ ·) →
      (insLoop v t pl pi pr fuel).length = t.length ∧
      (∀ k, k < pl ∨ pr < k → getI (insLoop v t pl pi pr fuel) k = getI t k) ∧
      (insLoop v t pl pi pr fuel).Perm t ∧
      (segKeys v (insLoop v t pl pi pr fuel) pl (pr + 1 - pl)).Pairwise (· ≤ ·)
  | 0, t, pi, h1, h2, h3, h4, h5 => absurd h4 (by omega)
  | fuel + 1, t, pi, h1, h2, h3, h4, h5 => by
    simp only [insLoop]
    by_cases hpi : pi ≤ pr
    · rw [if_pos hpi]
      have hstep := insStep_spec v t pl pi
        (setI (insShift v (v (getI t pi)) t pl pi pi).1
          (insShift v (v (getI t pi)) t pl pi pi).2 (getI t pi))
        h1 (by omega) h5 rfl
      have ih := insLoop_spec v pl pr fuel
        (setI (insShift v (v (getI t pi)) t pl pi pi).1
          (insShift v (v (getI t pi)) t pl pi pi).2 (getI t pi))
        (pi + 1) (by omega) (by omega) (by rw [hstep.1]; exact h3) (by omega)
        hstep.2.2.2
      exact ⟨ih.1.trans hstep.1,
        fun k hk => (ih.2.1 k hk).trans
          (hstep.2.1 k (hk.imp id (fun h => lt_of_le_of_lt hpi h))),
        ih.2.2.1.trans hstep.2.2.1, ih.2.2.2⟩
    · rw [if_neg hpi]
      have hpieq : pi - pl = pr + 1 - pl := by omega
      rw [hpieq] at h5
      exact ⟨rfl, fun k hk => rfl, List.Perm.refl t, h5⟩

lemma insSort_spec [LinearOrder K] (v : Nat → K) (t : List Nat) (pl pr : Nat)
    (h1 : pl ≤ pr) (h2 : pr < t.length) :
    (insSort v t pl pr).length = t.length ∧
    (∀ k, k < pl ∨ pr < k → getI (insSort v t pl pr) k = getI t k) ∧
    (insSort v t pl pr).Perm t ∧
    (segKeys v (insSort v t pl pr) pl (pr + 1 - pl)).Pairwise (· ≤ ·) := by
  unfold insSort
  exact insLoop_spec v pl pr (pr + 1) t (pl + 1) (Nat.lt_succ_self pl) (by omega) h2
    (by omega)
    (by
      rw [pairwise_segKeys_iff]
      intro i j hi hij hj
      exact absurd hj (by omega))

end PhaseD

section PhaseE1

variable {K : Type}

lemma hsift_plug_perm [LinearOrder K] (v : Nat → K) (pl : Nat) (vtmp : K) (n : Nat) :
    ∀ fuel t i j x, 1 ≤ i → i < j → i ≤ n → pl + n ≤ t.length →
      (setI (hsift v pl t vtmp i j n fuel).1
        (pl + (hsift v pl t vtmp i j n fuel).2 - 1) x).Perm (setI t (pl + i - 1) x)
  | 0, t, i, j, x, hi1, hij, hin, hlen => List.Perm.refl _
  | fuel + 1, t, i, j, x, hi1, hij, hin, hlen => by
    set j1 := if j < n ∧ v (getI t (pl + j - 1)) < v (getI t (pl + j)) then j + 1 else j
      with hj1
    have heq : hsift v pl t vtmp i j n (fuel + 1) =
        if j ≤ n then
          (if vtmp < v (getI t (pl + j1 - 1)) then
            hsift v pl (setI t (pl + i - 1) (getI t (pl + j1 - 1))) vtmp j1 (2 * j1) n fuel
          else (t, i))
        else (t, i) := rfl
    rw [heq]
    by_cases hjn : j ≤ n
    · rw [if_pos hjn]
      have hj1b : j ≤ j1 ∧ j1 ≤ n := by
        rw [hj1]
        split
        · next hcond => exact ⟨Nat.le_succ j, by omega⟩
        · exact ⟨le_refl j, hjn⟩
      by_cases hmove : vtmp < v (getI t (pl + j1 - 1))
      · rw [if_pos hmove]
        have ih := hsift_plug_perm v pl vtmp n fuel
          (setI t (pl + i - 1) (getI t (pl + j1 - 1))) j1 (2 * j1) x
          (by omega) (by omega) hj1b.2 (by rw [length_setI]; exact hlen)
        have hswap : (setI (setI t (pl + i - 1) (getI t (pl + j1 - 1))) (pl + j1 - 1) x).Perm
            (setI t (pl + i - 1) x) := by
          refine perm_of_swap_two _ _ (pl + i - 1) (pl + j1 - 1) ?_ ?_ ?_ ?_ ?_ ?_
          · rw [length_setI, length_setI, length_setI]
          · rw [length_setI]; omega
          · rw [length_setI]; omega
          · rw [getI_setI_ne _ _ _ _ (by omega : pl + j1 - 1 ≠ pl + i - 1),
              getI_setI_self _ _ _ (by omega),
              getI_setI_ne _ _ _ _ (by omega : pl + i - 1 ≠ pl + j1 - 1)]
          · rw [getI_setI_self _ _ _ (by rw [length_setI]; omega),
              getI_setI_self _ _ _ (by omega)]
          · intro m hm1 hm2
            rw [getI_setI_ne _ _ _ _ (fun hh => hm2 hh.symm),
              getI_setI_ne _ _ _ _ (fun hh => hm1 hh.symm),
              getI_setI_ne _ _ _ _ (fun hh => hm1 hh.symm)]
        exact ih.trans hswap
      · rw [if_neg hmove]
    · rw [if_neg hjn]

lemma hsift_stop_heap [LinearOrder K] (v : Nat → K) (pl : Nat) (vtmp : K) (n i0 : Nat)
    (tmp : Nat) (hvt : vtmp = v tmp) (t : List Nat) (i : Nat)
    (hI0 : 1 ≤ i0) (hi0 : i0 ≤ i) (hin : i ≤ n) (hlen : pl + n ≤ t.length)
    (K1 : ∀ c, 2 ≤ c → c ≤ n → i0 ≤ c / 2 → c / 2 ≠ i →
      v (getI t (pl + c - 1)) ≤ v (getI t (pl + c / 2 - 1)))
    (K2 : i ≠ i0 → vtmp ≤ v (getI t (pl + i / 2 - 1)))
    (hchild : ∀ c, 2 ≤ c → c ≤ n → c / 2 = i → v (getI t (pl + c - 1)) ≤ vtmp) :
    ∀ c, 2 ≤ c → c ≤ n → i0 ≤ c / 2 →
      v (getI (setI t (pl + i - 1) tmp) (pl + c - 1)) ≤
      v (getI (setI t (pl + i - 1) tmp) (pl + c / 2 - 1)) := by
  intro c hc1 hc2 hc3
  by_cases hpar : c / 2 = i
  · have hcne : c ≠ i := by omega
    rw [getI_setI_ne _ _ _ _ (by omega), hpar, getI_setI_self _ _ _ (by omega), ← hvt]
    exact hchild c hc1 hc2 hpar
  · by_cases hcld : c = i
    · rw [hcld, getI_setI_self _ _ _ (by omega), getI_setI_ne _ _ _ _ (by omega), ← hvt]
      exact K2 (by omega)
    · rw [getI_setI_ne _ _ _ _ (by omega), getI_setI_ne _ _ _ _ (by omega)]
      exact K1 c hc1 hc2 hc3 hpar

lemma hsift_spec [LinearOrder K] (v : Nat → K) (pl : Nat) (vtmp : K) (n i0 : Nat)
    (tmp : Nat) (hvt : vtmp = v tmp) (hI0 : 1 ≤ i0) :
    ∀ fuel t i j, 1 ≤ i → i0 ≤ i → i ≤ n → j = 2 * i → pl + n ≤ t.length → n ≤ fuel + i →
      (∀ c, 2 ≤ c → c ≤ n → i0 ≤ c / 2 → c / 2 ≠ i →
        v (getI t (pl + c - 1)) ≤ v (getI t (pl + c / 2 - 1))) →
      (i ≠ i0 → vtmp ≤ v (getI t (pl + i / 2 - 1))) →
      (i ≠ i0 → ∀ c, 2 ≤ c → c ≤ n → c / 2 = i →
        v (getI t (pl + c - 1)) ≤ v (getI t (pl + i / 2 - 1))) →
      (hsift v pl t vtmp i j n fuel).1.length = t.length ∧
      i ≤ (hsift v pl t vtmp i j n fuel).2 ∧ (hsift v pl t vtmp i j n fuel).2 ≤ n ∧
      (∀ k, k < pl + i - 1 ∨ pl + n - 1 < k →
        getI (hsift v pl t vtmp i j n fuel).1 k = getI t k) ∧
      (∀ c, 2 ≤ c → c ≤ n → i0 ≤ c / 2 →
        v (getI (setI (hsift v pl t vtmp i j n fuel).1
            (pl + (hsift v pl t vtmp i j n fuel).2 - 1) tmp) (pl + c - 1)) ≤
        v (getI (setI (hsift v pl t vtmp i j n fuel).1
            (pl + (hsift v pl t vtmp i j n fuel).2 - 1) tmp) (pl + c / 2 - 1)))
  | 0, t, i, j, hi1, hi0, hin, hj, hlen, hfuel, K1, K2, K4 => by
    refine ⟨rfl, le_refl i, hin, fun k hk => rfl, ?_⟩
    exact hsift_stop_heap v pl vtmp n i0 tmp hvt t i hI0 hi0 hin hlen K1 K2
      (fun c hc1 hc2 hc3 => absurd hc2 (by omega))
  | fuel + 1, t, i, j, hi1, hi0, hin, hj, hlen, hfuel, K1, K2, K4 => by
    set j1 := if j < n ∧ v (getI t (pl + j - 1)) < v (getI t (pl + j)) then j + 1 else j
      with hj1
    have heq : hsift v pl t vtmp i j n (fuel + 1) =
        if j ≤ n then
          (if vtmp < v (getI t (pl + j1 - 1)) then
            hsift v pl (setI t (pl + i - 1) (getI t (pl + j1 - 1))) vtmp j1 (2 * j1) n fuel
          else (t, i))
        else (t, i) := rfl
    rw [heq]
    by_cases hjn : j ≤ n
    · rw [if_pos hjn]
      have hj1b : j ≤ j1 ∧ j1 ≤ n ∧ (j1 = j ∨ (j1 = j + 1 ∧ j < n)) := by
        rw [hj1]
        split
        · next hcond => exact ⟨Nat.le_succ j, by omega, Or.inr ⟨rfl, hcond.1⟩⟩
        · exact ⟨le_refl j, hjn, Or.inl rfl⟩
      have hmax : ∀ c, 2 ≤ c → c ≤ n → c / 2 = i →
          v (getI t (pl + c - 1)) ≤ v (getI t (pl + j1 - 1)) := by
        intro c hc1 hc2 hc3
        have hcj : c = j ∨ c = j + 1 := by omega
        rcases hj1b.2.2 with he | ⟨he, hlt⟩
        · rcases hcj with hcj | hcj
          · rw [hcj, he]
          · have hjlt : j < n := by omega
            have hsel : ¬ (j < n ∧ v (getI t (pl + j - 1)) < v (getI t (pl + j))) := by
              intro hx
              rw [hj1, if_pos hx] at he
              omega
            have hx : ¬ v (getI t (pl + j - 1)) < v (getI t (pl + j)) := by
              rcases Decidable.not_and_iff_or_not.mp hsel with hx | hx
              · omega
              · exact hx
            rw [hcj, he, show pl + (j + 1) - 1 = pl + j from by omega]
            exact not_lt.mp hx
        · have hsel : j < n ∧ v (getI t (pl + j - 1)) < v (getI t (pl + j)) := by
            by_contra hx
            rw [hj1, if_neg hx] at he
            omega
          rcases hcj with hcj | hcj
          · rw [hcj, he, show pl + (j + 1) - 1 = pl + j from by omega]
            exact le_of_lt hsel.2
          · rw [hcj, he]
      by_cases hmove : vtmp < v (getI t (pl + j1 - 1))
      · rw [if_pos hmove]
        have hij1 : i < j1 := by omega
        have hWt1 : ∀ m, 1 ≤ m → m ≠ i →
            getI (setI t (pl + i - 1) (getI t (pl + j1 - 1))) (pl + m - 1) =
            getI t (pl + m - 1) := by
          intro m hm1 hm2
          exact getI_setI_ne _ _ _ _ (by omega)
        have hWt2 : getI (setI t (pl + i - 1) (getI t (pl + j1 - 1))) (pl + i - 1) =
            getI t (pl + j1 - 1) := getI_setI_self _ _ _ (by omega)
        have K1n : ∀ c, 2 ≤ c → c ≤ n → i0 ≤ c / 2 → c / 2 ≠ j1 →
            v (getI (setI t (pl + i - 1) (getI t (pl + j1 - 1))) (pl + c - 1)) ≤
            v (getI (setI t (pl + i - 1) (getI t (pl + j1 - 1))) (pl + c / 2 - 1)) := by
          intro c hc1 hc2 hc3 hc4
          by_cases hpar : c / 2 = i
          · have hcne : c ≠ i := by omega
            rw [hWt1 c (by omega) hcne, hpar, hWt2]
            exact hmax c hc1 hc2 hpar
          · by_cases hcld : c = i
            · have hig : 2 ≤ i := by omega
              rw [hcld, hWt2, hWt1 (i / 2) (by omega) (by omega)]
              have hine : i ≠ i0 := by omega
              exact K4 hine j1 (by omega) hj1b.2.1 (by omega)
            · rw [hWt1 c (by omega) hcld, hWt1 (c / 2) (by omega) hpar]
              exact K1 c hc1 hc2 hc3 hpar
        have K2n : j1 ≠ i0 → vtmp ≤
            v (getI (setI t (pl + i - 1) (getI t (pl + j1 - 1))) (pl + j1 / 2 - 1)) := by
          intro hx
          have hd : j1 / 2 = i := by omega
          rw [hd, hWt2]
          exact le_of_lt hmove
        have K4n : j1 ≠ i0 → ∀ c, 2 ≤ c → c ≤ n → c / 2 = j1 →
            v (getI (setI t (pl + i - 1) (getI t (pl + j1 - 1))) (pl + c - 1)) ≤
            v (getI (setI t (pl + i - 1) (getI t (pl + j1 - 1))) (pl + j1 / 2 - 1)) := by
          intro hx c hc1 hc2 hc3
          have hd : j1 / 2 = i := by omega
          rw [hd, hWt2, hWt1 c (by omega) (by omega), ← hc3]
          exact K1 c hc1 hc2 (by omega) (by omega)
        have ih := hsift_spec v pl vtmp n i0 tmp hvt hI0 fuel
          (setI t (pl + i - 1) (getI t (pl + j1 - 1))) j1 (2 * j1)
          (by omega) (by omega) hj1b.2.1 rfl (by rw [length_setI]; exact hlen)
          (by omega) K1n K2n K4n
        refine ⟨ih.1.trans (length_setI _ _ _), by omega, ih.2.2.1, ?_, ih.2.2.2.2⟩
        intro k hk
        rw [ih.2.2.2.1 k (by omega), getI_setI_ne _ _ _ _ (by omega)]
      · rw [if_neg hmove]
        refine ⟨rfl, le_refl i, hin, fun k hk => rfl, ?_⟩
        exact hsift_stop_heap v pl vtmp n i0 tmp hvt t i hI0 hi0 hin hlen K1 K2
          (fun c hc1 hc2 hc3 => le_trans (hmax c hc1 hc2 hc3) (not_lt.mp hmove))
    · rw [if_neg hjn]
      refine ⟨rfl, le_refl i, hin, fun k hk => rfl, ?_⟩
      exact hsift_stop_heap v pl vtmp n i0 tmp hvt t i hI0 hi0 hin hlen K1 K2
        (fun c hc1 hc2 hc3 => absurd hc2 (by omega))

end PhaseE1

section PhaseE2

variable {K : Type}

lemma heap_root_max [LinearOrder K] (v : Nat → K) (pl n : Nat) (t : List Nat)
    (E1 : ∀ c, 2 ≤ c → c ≤ n → v (getI t (pl + c - 1)) ≤ v (getI t (pl + c / 2 - 1))) :
    ∀ c, 1 ≤ c → c ≤ n → v (getI t (pl + c - 1)) ≤ v (getI t (pl + 1 - 1)) := by
  intro c
  induction c using Nat.strong_induction_on with
  | _ c ih =>
    intro hc1 hc2
    rcases Nat.eq_or_lt_of_le hc1 with he | hgt
    · rw [← he]
    · exact le_trans (E1 c (by omega) hc2) (ih (c / 2) (by omega) (by omega) (by omega))

lemma hBuild_spec [LinearOrder K] (v : Nat → K) (pl n : Nat) :
    ∀ l t, l ≤ n / 2 → pl + n ≤ t.length →
      (∀ c, 2 ≤ c → c ≤ n → l + 1 ≤ c / 2 →
        v (getI t (pl + c - 1)) ≤ v (getI t (pl + c / 2 - 1))) →
      (hBuild v pl t l n).length = t.length ∧
      (∀ k, k < pl ∨ pl + n - 1 < k → getI (hBuild v pl t l n) k = getI t k) ∧
      (hBuild v pl t l n).Perm t ∧
      (∀ c, 2 ≤ c → c ≤ n →
        v (getI (hBuild v pl t l n) (pl + c - 1)) ≤
        v (getI (hBuild v pl t l n) (pl + c / 2 - 1)))
  | 0, t, hl, hlen, hinv => by
    refine ⟨rfl, fun k hk => rfl, List.Perm.refl t, ?_⟩
    intro c hc1 hc2
    exact hinv c hc1 hc2 (by omega)
  | l + 1, t, hl, hlen, hinv => by
    set S := hsift v pl t (v (getI t (pl + l))) (l + 1) (2 * (l + 1)) n n with hS
    set F := setI S.1 (pl + S.2 - 1) (getI t (pl + l)) with hF
    have heq : hBuild v pl t (l + 1) n = hBuild v pl F l n := rfl
    rw [heq]
    have hs := hsift_spec v pl (v (getI t (pl + l))) n (l + 1) (getI t (pl + l)) rfl
      (by omega) n t (l + 1) (2 * (l + 1)) (by omega) (le_refl _) (by omega) rfl hlen
      (by omega)
      (fun c hc1 hc2 hc3 hc4 => hinv c hc1 hc2 (by omega))
      (fun hx => absurd rfl hx)
      (fun hx => absurd rfl hx)
    rw [← hS] at hs
    have hFlen : F.length = t.length := by rw [hF, length_setI, hs.1]
    have ih := hBuild_spec v pl n l F (by omega) (by rw [hFlen]; exact hlen)
      (by rw [hF]; exact hs.2.2.2.2)
    have hFout : ∀ k, k < pl ∨ pl + n - 1 < k → getI F k = getI t k := by
      intro k hk
      have hb1 : l + 1 ≤ S.2 := hs.2.1
      have hb2 : S.2 ≤ n := hs.2.2.1
      rw [hF, getI_setI_ne _ _ _ _ (by omega), hs.2.2.2.1 k (by omega)]
    have hFperm : F.Perm t := by
      have hplug := hsift_plug_perm v pl (v (getI t (pl + l))) n n t (l + 1)
        (2 * (l + 1)) (getI t (pl + l)) (by omega) (by omega) (by omega) hlen
      rw [← hS] at hplug
      rw [show pl + (l + 1) - 1 = pl + l from by omega, setI_getI_self] at hplug
      exact hplug
    exact ⟨ih.1.trans hFlen,
      fun k hk => (ih.2.1 k hk).trans (hFout k hk),
      ih.2.2.1.trans hFperm, ih.2.2.2⟩

lemma hExtract_spec [LinearOrder K] (v : Nat → K) (pl N : Nat) :
    ∀ fuel t n, 1 ≤ n → n ≤ N → n ≤ fuel + 1 → pl + N ≤ t.length →
      (∀ c, 2 ≤ c → c ≤ n →
        v (getI t (pl + c - 1)) ≤ v (getI t (pl + c / 2 - 1))) →
      (∀ a b, n < a → a < b → b ≤ N →
        v (getI t (pl + a - 1)) ≤ v (getI t (pl + b - 1))) →
      (∀ c a, 1 ≤ c → c ≤ n → n < a → a ≤ N →
        v (getI t (pl + c - 1)) ≤ v (getI t (pl + a - 1))) →
      (hExtract v pl t n fuel).length = t.length ∧
      (∀ k, k < pl ∨ pl + N - 1 < k → getI (hExtract v pl t n fuel) k = getI t k) ∧
      (hExtract v pl t n fuel).Perm t ∧
      (∀ a b, 1 ≤ a → a < b → b ≤ N →
        v (getI (hExtract v pl t n fuel) (pl + a - 1)) ≤
        v (getI (hExtract v pl t n fuel) (pl + b - 1)))
  | 0, t, n, hn1, hnN, hfuel, hlen, E1, E2, E3 => by
    refine ⟨rfl, fun k hk => rfl, List.Perm.refl t, ?_⟩
    intro a b ha hab hbN
    have hn : n = 1 := by omega
    by_cases hag : a = 1
    · rw [hag]
      exact E3 1 b (le_refl 1) (by omega) (by omega) hbN
    · exact E2 a b (by omega) hab hbN
  | fuel + 1, t, n, hn1, hnN, hfuel, hlen, E1, E2, E3 => by
    by_cases hn2 : 1 < n
    · set tmp := getI t (pl + n - 1) with htmp
      set t1 := setI t (pl + n - 1) (getI t pl) with ht1
      set S := hsift v pl t1 (v tmp) 1 2 (n - 1) (n - 1) with hS
      set F := setI S.1 (pl + S.2 - 1) tmp with hF
      have heq : hExtract v pl t n (fuel + 1) =
          if 1 < n then hExtract v pl F (n - 1) fuel else t := rfl
      rw [heq, if_pos hn2]
      have ht1len : t1.length = t.length := by rw [ht1, length_setI]
      have hs := hsift_spec v pl (v tmp) (n - 1) 1 tmp rfl (le_refl 1) (n - 1) t1 1 2
        (le_refl 1) (le_refl 1) (by omega) (by omega) (by omega) (by omega)
        (by
          intro c hc1 hc2 hc3 hc4
          rw [ht1, getI_setI_ne _ _ _ _ (by omega : pl + n - 1 ≠ pl + c - 1),
            getI_setI_ne _ _ _ _ (by omega : pl + n - 1 ≠ pl + c / 2 - 1)]
          exact E1 c hc1 (by omega))
        (fun hx => absurd rfl hx)
        (fun hx => absurd rfl hx)
      rw [← hS] at hs
      have hrootmax := heap_root_max v pl n t E1
      have hb1 : 1 ≤ S.2 := hs.2.1
      have hb2 : S.2 ≤ n - 1 := hs.2.2.1
      have hFlen : F.length = t.length := by rw [hF, length_setI, hs.1, ht1len]
      have hFat : getI F (pl + n - 1) = getI t pl := by
        rw [hF, getI_setI_ne _ _ _ _ (by omega), hs.2.2.2.1 (pl + n - 1) (by omega),
          ht1, getI_setI_self _ _ _ (by omega)]
      have hFabove : ∀ k, pl + n - 1 < k → getI F k = getI t k := by
        intro k hk
        rw [hF, getI_setI_ne _ _ _ _ (by omega), hs.2.2.2.1 k (by omega),
          ht1, getI_setI_ne _ _ _ _ (by omega)]
      have hFbelow : ∀ k, k < pl → getI F k = getI t k := by
        intro k hk
        rw [hF, getI_setI_ne _ _ _ _ (by omega), hs.2.2.2.1 k (by omega),
          ht1, getI_setI_ne _ _ _ _ (by omega)]
      have hSw : setI t1 pl tmp = swpI t (pl + n - 1) pl := by
        rw [ht1, htmp]
        rfl
      have hFperm : F.Perm t := by
        have hplug := hsift_plug_perm v pl (v tmp) (n - 1) (n - 1) t1 1 2 tmp
          (le_refl 1) (by omega) (by omega) (by omega)
        rw [← hS] at hplug
        rw [show pl + 1 - 1 = pl from by omega, hSw] at hplug
        rw [hF]
        exact hplug.trans (swpI_perm t (pl + n - 1) pl (by omega) (by omega))
      have hFswperm : F.Perm (swpI t (pl + n - 1) pl) := by
        have hplug := hsift_plug_perm v pl (v tmp) (n - 1) (n - 1) t1 1 2 tmp
          (le_refl 1) (by omega) (by omega) (by omega)
        rw [← hS] at hplug
        rw [show pl + 1 - 1 = pl from by omega, hSw] at hplug
        rw [hF]
        exact hplug
      have hFin : ∀ k, pl ≤ k → k < pl + (n - 1) → v (getI F k) ≤ v (getI t pl) := by
        have hagree : ∀ k, k < pl ∨ pl + (n - 1) ≤ k →
            getI F k = getI (swpI t (pl + n - 1) pl) k := by
          intro k hk
          rcases hk with hk | hk
          · rw [hFbelow k hk, getI_swpI_other _ _ _ k (by omega) (by omega)]
          · by_cases hke : k = pl + n - 1
            · rw [hke, hFat, getI_swpI_left t (pl + n - 1) pl (by omega)]
            · rw [hFabove k (by omega), getI_swpI_other _ _ _ k (by omega) (by omega)]
        have hseg := segPerm_of_perm F (swpI t (pl + n - 1) pl) pl (n - 1)
          (by rw [hFlen, length_swpI]) hagree (by rw [length_swpI]; omega) hFswperm
        have hbS : ∀ k, pl ≤ k → k < pl + (n - 1) →
            v (getI (swpI t (pl + n - 1) pl) k) ≤ v (getI t pl) := by
          intro k hk1 hk2
          by_cases hke : k = pl
          · rw [hke, getI_swpI_right t (pl + n - 1) pl (by omega)]
            have := hrootmax n (by omega) (le_refl n)
            rwa [show pl + 1 - 1 = pl from by omega] at this
          · rw [getI_swpI_other _ _ _ k (by omega) (by omega)]
            have := hrootmax (k - pl + 1) (by omega) (by omega)
            rwa [show pl + (k - pl + 1) - 1 = k from by omega,
              show pl + 1 - 1 = pl from by omega] at this
        exact segBound_transfer v F (swpI t (pl + n - 1) pl) pl (n - 1)
          (fun x => x ≤ v (getI t pl)) hseg hbS
      have ih := hExtract_spec v pl N fuel F (n - 1) (by omega) (by omega) (by omega)
        (by rw [hFlen]; exact hlen)
        (by
          intro c hc1 hc2
          have := hs.2.2.2.2 c hc1 hc2 (by omega)
          rw [← hF] at this
          exact this)
        (by
          intro a b ha hab hbN
          by_cases hae : a = n
          · rw [hae, hFat, hFabove (pl + b - 1) (by omega)]
            have := E3 1 b (le_refl 1) (by omega) (by omega) hbN
            rwa [show pl + 1 - 1 = pl from by omega] at this
          · rw [hFabove (pl + a - 1) (by omega), hFabove (pl + b - 1) (by omega)]
            exact E2 a b (by omega) hab hbN)
        (by
          intro c a hc1 hc2 hna haN
          have hcF : v (getI F (pl + c - 1)) ≤ v (getI t pl) :=
            hFin (pl + c - 1) (by omega) (by omega)
          by_cases hae : a = n
          · rw [hae, hFat]
            exact hcF
          · rw [hFabove (pl + a - 1) (by omega)]
            refine le_trans hcF ?_
            have := E3 1 a (le_refl 1) (by omega) (by omega) haN
            rwa [show pl + 1 - 1 = pl from by omega] at this)
      refine ⟨ih.1.trans hFlen, ?_, ih.2.2.1.trans hFperm, ih.2.2.2⟩
      intro k hk
      rw [ih.2.1 k hk]
      rcases hk with hk | hk
      · exact hFbelow k hk
      · exact hFabove k (by omega)
    · have heq : hExtract v pl t n (fuel + 1) =
          if 1 < n then
            hExtract v pl
              (setI (hsift v pl (setI t (pl + n - 1) (getI t pl))
                  (v (getI t (pl + n - 1))) 1 2 (n - 1) (n - 1)).1
                (pl + (hsift v pl (setI t (pl + n - 1) (getI t pl))
                  (v (getI t (pl + n - 1))) 1 2 (n - 1) (n - 1)).2 - 1)
                (getI t (pl + n - 1))) (n - 1) fuel
          else t := rfl
      rw [heq, if_neg hn2]
      refine ⟨rfl, fun k hk => rfl, List.Perm.refl t, ?_⟩
      intro a b ha hab hbN
      have hn : n = 1 := by omega
      by_cases hag : a = 1
      · rw [hag]
        exact E3 1 b (le_refl 1) (by omega) (by omega) hbN
      · exact E2 a b (by omega) hab hbN

lemma aheapsort_spec [LinearOrder K] (v : Nat → K) (t : List Nat) (pl n : Nat)
    (hn : 1 ≤ n) (hlen : pl + n ≤ t.length) :
    (aheapsort v t pl n).length = t.length ∧
    (∀ k, k < pl ∨ pl + n - 1 < k → getI (aheapsort v t pl n) k = getI t k) ∧
    (aheapsort v t pl n).Perm t ∧
    (segKeys v (aheapsort v t pl n) pl n).Pairwise (· ≤ ·) := by
  have hb := hBuild_spec v pl n (n / 2) t (le_refl _) hlen
    (fun c hc1 hc2 hc3 => absurd hc3 (by omega))
  have he := hExtract_spec v pl n n (hBuild v pl t (n / 2) n) n hn (le_refl n)
    (by omega) (by rw [hb.1]; exact hlen) hb.2.2.2
    (fun a b ha hab hbN => absurd hbN (by omega))
    (fun c a hc1 hc2 hna haN => absurd haN (by omega))
  have hunf : aheapsort v t pl n = hExtract v pl (hBuild v pl t (n / 2) n) n n := rfl
  rw [hunf]
  refine ⟨he.1.trans hb.1, fun k hk => (he.2.1 k hk).trans (hb.2.1 k hk),
    he.2.2.1.trans hb.2.2.1, ?_⟩
  rw [pairwise_segKeys_iff]
  intro i j hi hij hj
  have := he.2.2.2 (i - pl + 1) (j - pl + 1) (by omega) (by omega) (by omega)
  rwa [show pl + (i - pl + 1) - 1 = i from by omega,
    show pl + (j - pl + 1) - 1 = j from by omega] at this

end PhaseE2

section PhaseF1

variable {K : Type}

lemma introsort_combine [LinearOrder K] (v : Nat → K) (R : List Nat) (pl pi pr : Nat)
    (pivKey : K) (h1 : pl < pi) (h2 : pi < pr)
    (hRl : ∀ k, pl ≤ k → k < pi → v (getI R k) ≤ pivKey)
    (hRr : ∀ k, pi < k → k ≤ pr → pivKey ≤ v (getI R k))
    (hRp : v (getI R pi) = pivKey)
    (hsortL : ∀ i j, pl ≤ i → i < j → j < pi → v (getI R i) ≤ v (getI R j))
    (hsortR : ∀ i j, pi < i → i < j → j ≤ pr → v (getI R i) ≤ v (getI R j)) :
    (segKeys v R pl (pr + 1 - pl)).Pairwise (· ≤ ·) := by
  rw [pairwise_segKeys_iff]
  intro i j hi hij hj
  by_cases hipi : i < pi
  · by_cases hjpi : j < pi
    · exact hsortL i j hi hij hjpi
    · by_cases hjpi2 : j = pi
      · rw [hjpi2, hRp]
        exact hRl i hi hipi
      · exact le_trans (hRl i hi hipi) (hRr j (by omega) (by omega))
  · by_cases hipi2 : i = pi
    · rw [hipi2, hRp]
      exact hRr j (by omega) (by omega)
    · exact hsortR i j (by omega) hij (by omega)

lemma qsLeftRight_combine [LinearOrder K] (v : Nat → K) (t1 L R : List Nat)
    (pl pi pr : Nat) (h1 : pl < pi) (h2 : pi < pr) (hprlen : pr < t1.length)
    (hps5 : ∀ k, pl ≤ k → k < pi → v (getI t1 k) ≤ v (getI t1 pi))
    (hps6 : ∀ k, pi < k → k ≤ pr → v (getI t1 pi) ≤ v (getI t1 k))
    (hLlen : L.length = t1.length)
    (hLout : ∀ k, k < pl ∨ pi - 1 < k → getI L k = getI t1 k)
    (hLperm : L.Perm t1)
    (hLsort : ∀ i j, pl ≤ i → i < j → j < pi → v (getI L i) ≤ v (getI L j))
    (hRlen : R.length = L.length)
    (hRout : ∀ k, k < pi + 1 ∨ pr < k → getI R k = getI L k)
    (hRperm : R.Perm L)
    (hRsort : ∀ i j, pi < i → i < j → j ≤ pr → v (getI R i) ≤ v (getI R j)) :
    R.length = t1.length ∧ (∀ k, k < pl ∨ pr < k → getI R k = getI t1 k) ∧
    R.Perm t1 ∧ (segKeys v R pl (pr + 1 - pl)).Pairwise (· ≤ ·) := by
  have hout2 : ∀ k, k < pl ∨ pr < k → getI R k = getI t1 k := fun k hk =>
    (hRout k (hk.imp (fun h => by omega) id)).trans (hLout k (hk.imp id (fun h => by omega)))
  have hRpi : getI R pi = getI t1 pi := by
    rw [hRout pi (Or.inl (by omega)), hLout pi (Or.inr (by omega))]
  have hsegL : (segIdx L pl (pi - pl)).Perm (segIdx t1 pl (pi - pl)) :=
    segPerm_of_perm L t1 pl (pi - pl) hLlen
      (fun k hk => hLout k (hk.imp id (fun h => by omega))) (by omega) hLperm
  have hLle : ∀ k, pl ≤ k → k < pl + (pi - pl) → v (getI L k) ≤ v (getI t1 pi) :=
    segBound_transfer v L t1 pl (pi - pl) (fun x => x ≤ v (getI t1 pi)) hsegL
      (fun k hk1 hk2 => hps5 k hk1 (by omega))
  have hRl : ∀ k, pl ≤ k → k < pi → v (getI R k) ≤ v (getI t1 pi) := by
    intro k hk1 hk2
    rw [hRout k (Or.inl (by omega))]
    exact hLle k hk1 (by omega)
  have hsegR : (segIdx R (pi + 1) (pr - pi)).Perm (segIdx L (pi + 1) (pr - pi)) :=
    segPerm_of_perm R L (pi + 1) (pr - pi) hRlen
      (fun k hk => hRout k (hk.imp id (fun h => by omega)))
      (by rw [hLlen]; omega) hRperm
  have hLge : ∀ k, pi + 1 ≤ k → k < (pi + 1) + (pr - pi) →
      v (getI t1 pi) ≤ v (getI L k) := by
    intro k hk1 hk2
    rw [hLout k (Or.inr (by omega))]
    exact hps6 k (by omega) (by omega)
  have hRr : ∀ k, pi < k → k ≤ pr → v (getI t1 pi) ≤ v (getI R k) := by
    intro k hk1 hk2
    exact segBound_transfer v R L (pi + 1) (pr - pi) (fun x => v (getI t1 pi) ≤ x)
      hsegR hLge k (by omega) (by omega)
  have hsortLR : ∀ i j, pl ≤ i → i < j → j < pi → v (getI R i) ≤ v (getI R j) := by
    intro i j hi hij hj
    rw [hRout i (Or.inl (by omega)), hRout j (Or.inl (by omega))]
    exact hLsort i j hi hij hj
  exact ⟨hRlen.trans hLlen, hout2, hRperm.trans hLperm,
    introsort_combine v R pl pi pr (v (getI t1 pi)) h1 h2 hRl hRr (by rw [hRpi])
      hsortLR hRsort⟩

lemma qsRightLeft_combine [LinearOrder K] (v : Nat → K) (t1 L R : List Nat)
    (pl pi pr : Nat) (h1 : pl < pi) (h2 : pi < pr) (hprlen : pr < t1.length)
    (hps5 : ∀ k, pl ≤ k → k < pi → v (getI t1 k) ≤ v (getI t1 pi))
    (hps6 : ∀ k, pi < k → k ≤ pr → v (getI t1 pi) ≤ v (getI t1 k))
    (hLlen : L.length = t1.length)
    (hLout : ∀ k, k < pi + 1 ∨ pr < k → getI L k = getI t1 k)
    (hLperm : L.Perm t1)
    (hLsort : ∀ i j, pi < i → i < j → j ≤ pr → v (getI L i) ≤ v (getI L j))
    (hRlen : R.length = L.length)
    (hRout : ∀ k, k < pl ∨ pi - 1 < k → getI R k = getI L k)
    (hRperm : R.Perm L)
    (hRsort : ∀ i j, pl ≤ i → i < j → j < pi → v (getI R i) ≤ v (getI R j)) :
    R.length = t1.length ∧ (∀ k, k < pl ∨ pr < k → getI R k = getI t1 k) ∧
    R.Perm t1 ∧ (segKeys v R pl (pr + 1 - pl)).Pairwise (· ≤ ·) := by
  have hout2 : ∀ k, k < pl ∨ pr < k → getI R k = getI t1 k := fun k hk =>
    (hRout k (hk.imp id (fun h => by omega))).trans (hLout k (hk.imp (fun h => by omega) id))
  have hRpi : getI R pi = getI t1 pi := by
    rw [hRout pi (Or.inr (by omega)), hLout pi (Or.inl (by omega))]
  have hLle : ∀ k, pl ≤ k → k < pl + (pi - pl) → v (getI L k) ≤ v (getI t1 pi) := by
    intro k hk1 hk2
    rw [hLout k (Or.inl (by omega))]
    exact hps5 k hk1 (by omega)
  have hsegRL : (segIdx R pl (pi - pl)).Perm (segIdx L pl (pi - pl)) :=
    segPerm_of_perm R L pl (pi - pl) hRlen
      (fun k hk => hRout k (hk.imp id (fun h => by omega)))
      (by rw [hLlen]; omega) hRperm
  have hRl : ∀ k, pl ≤ k → k < pi → v (getI R k) ≤ v (getI t1 pi) := by
    intro k hk1 hk2
    exact segBound_transfer v R L pl (pi - pl) (fun x => x ≤ v (getI t1 pi))
      hsegRL hLle k hk1 (by omega)
  have hsegL : (segIdx L (pi + 1) (pr - pi)).Perm (segIdx t1 (pi + 1) (pr - pi)) :=
    segPerm_of_perm L t1 (pi + 1) (pr - pi) hLlen
      (fun k hk => hLout k (hk.imp id (fun h => by omega))) (by omega) hLperm
  have hLge : ∀ k, pi + 1 ≤ k → k < (pi + 1) + (pr - pi) →
      v (getI t1 pi) ≤ v (getI L k) :=
    segBound_transfer v L t1 (pi + 1) (pr - pi) (fun x => v (getI t1 pi) ≤ x) hsegL
      (fun k hk1 hk2 => hps6 k (by omega) (by omega))
  have hRr : ∀ k, pi < k → k ≤ pr → v (getI t1 pi) ≤ v (getI R k) := by
    intro k hk1 hk2
    rw [hRout k (Or.inr (by omega))]
    exact hLge k (by omega) (by omega)
  have hsortRR : ∀ i j, pi < i → i < j → j ≤ pr → v (getI R i) ≤ v (getI R j) := by
    intro i j hi hij hj
    rw [hRout i (Or.inr (by omega)), hRout j (Or.inr (by omega))]
    exact hLsort i j hi hij hj
  exact ⟨hRlen.trans hLlen, hout2, hRperm.trans hLperm,
    introsort_combine v R pl pi pr (v (getI t1 pi)) h1 h2 hRl hRr (by rw [hRpi])
      hRsort hsortRR⟩

end PhaseF1

section PhaseF2

variable {K : Type}

lemma aqsWhile_spec [LinearOrder K] (v : Nat → K) :
    ∀ fuel t pl pr depth, pl ≤ pr → pr < t.length → pr - pl < fuel →
      (aqsWhile v t pl pr depth fuel).length = t.length ∧
      (∀ k, k < pl ∨ pr < k → getI (aqsWhile v t pl pr depth fuel) k = getI t k) ∧
      (aqsWhile v t pl pr depth fuel).Perm t ∧
      (segKeys v (aqsWhile v t pl pr depth fuel) pl (pr + 1 - pl)).Pairwise (· ≤ ·)
  | 0, t, pl, pr, depth, hle, hpr, hfuel => absurd hfuel (by omega)
  | fuel + 1, t, pl, pr, depth, hle, hpr, hfuel => by
    set PS := partStep v t pl pr with hPS
    have heq : aqsWhile v t pl pr depth (fuel + 1) =
        if 15 < pr - pl then
          (if PS.2 - pl < pr - PS.2 then
            (if depth - 1 < 0 then
              aheapsort v (aqsWhile v PS.1 pl (PS.2 - 1) (depth - 1) fuel)
                (PS.2 + 1) (pr - PS.2)
            else
              aqsWhile v (aqsWhile v PS.1 pl (PS.2 - 1) (depth - 1) fuel)
                (PS.2 + 1) pr (depth - 1) fuel)
          else
            (if depth - 1 < 0 then
              aheapsort v (aqsWhile v PS.1 (PS.2 + 1) pr (depth - 1) fuel) pl (PS.2 - pl)
            else
              aqsWhile v (aqsWhile v PS.1 (PS.2 + 1) pr (depth - 1) fuel)
                pl (PS.2 - 1) (depth - 1) fuel))
        else insSort v t pl pr := rfl
    rw [heq]
    by_cases hbig : 15 < pr - pl
    · rw [if_pos hbig]
      have hps := partStep_spec v t pl pr hbig hpr
      rw [← hPS] at hps
      have hpi1 : pl < PS.2 := hps.2.2.2.1.1
      have hpi2 : PS.2 < pr := hps.2.2.2.1.2
      have ht1len : PS.1.length = t.length := hps.1
      by_cases hside : PS.2 - pl < pr - PS.2
      · rw [if_pos hside]
        have hL := aqsWhile_spec v fuel PS.1 pl (PS.2 - 1) (depth - 1)
          (by omega) (by omega) (by omega)
        have hLlen : (aqsWhile v PS.1 pl (PS.2 - 1) (depth - 1) fuel).length =
            PS.1.length := hL.1
        have hLsort : ∀ i j, pl ≤ i → i < j → j < PS.2 →
            v (getI (aqsWhile v PS.1 pl (PS.2 - 1) (depth - 1) fuel) i) ≤
            v (getI (aqsWhile v PS.1 pl (PS.2 - 1) (depth - 1) fuel) j) := by
          intro i j hi hij hj
          exact (pairwise_segKeys_iff v _ pl (PS.2 - 1 + 1 - pl)).mp hL.2.2.2
            i j hi hij (by omega)
        have hLout : ∀ k, k < pl ∨ PS.2 - 1 < k →
            getI (aqsWhile v PS.1 pl (PS.2 - 1) (depth - 1) fuel) k = getI PS.1 k :=
          hL.2.1
        by_cases hd : depth - 1 < 0
        · rw [if_pos hd]
          have ha := aheapsort_spec v (aqsWhile v PS.1 pl (PS.2 - 1) (depth - 1) fuel)
            (PS.2 + 1) (pr - PS.2) (by omega) (by rw [hLlen, ht1len]; omega)
          have hC := qsLeftRight_combine v PS.1 _ _ pl PS.2 pr hpi1 hpi2
            (by rw [ht1len]; exact hpr) hps.2.2.2.2.1 hps.2.2.2.2.2
            hLlen hLout hL.2.2.1 hLsort
            ha.1 (fun k hk => ha.2.1 k (hk.imp id (fun h => by omega))) ha.2.2.1
            (by
              intro i j hi hij hj
              exact (pairwise_segKeys_iff v _ (PS.2 + 1) (pr - PS.2)).mp ha.2.2.2
                i j (by omega) hij (by omega))
          exact ⟨hC.1.trans ht1len, fun k hk => (hC.2.1 k hk).trans (hps.2.1 k hk),
            hC.2.2.1.trans hps.2.2.1, hC.2.2.2⟩
        · rw [if_neg hd]
          have hR := aqsWhile_spec v fuel (aqsWhile v PS.1 pl (PS.2 - 1) (depth - 1) fuel)
            (PS.2 + 1) pr (depth - 1) (by omega) (by rw [hLlen, ht1len]; omega) (by omega)
          have hC := qsLeftRight_combine v PS.1 _ _ pl PS.2 pr hpi1 hpi2
            (by rw [ht1len]; exact hpr) hps.2.2.2.2.1 hps.2.2.2.2.2
            hLlen hLout hL.2.2.1 hLsort
            hR.1 (fun k hk => hR.2.1 k hk) hR.2.2.1
            (by
              intro i j hi hij hj
              exact (pairwise_segKeys_iff v _ (PS.2 + 1) (pr + 1 - (PS.2 + 1))).mp hR.2.2.2
                i j (by omega) hij (by omega))
          exact ⟨hC.1.trans ht1len, fun k hk => (hC.2.1 k hk).trans (hps.2.1 k hk),
            hC.2.2.1.trans hps.2.2.1, hC.2.2.2⟩
      · rw [if_neg hside]
        have hL := aqsWhile_spec v fuel PS.1 (PS.2 + 1) pr (depth - 1)
          (by omega) (by omega) (by omega)
        have hLlen : (aqsWhile v PS.1 (PS.2 + 1) pr (depth - 1) fuel).length =
            PS.1.length := hL.1
        have hLsort : ∀ i j, PS.2 < i → i < j → j ≤ pr →
            v (getI (aqsWhile v PS.1 (PS.2 + 1) pr (depth - 1) fuel) i) ≤
            v (getI (aqsWhile v PS.1 (PS.2 + 1) pr (depth - 1) fuel) j) := by
          intro i j hi hij hj
          exact (pairwise_segKeys_iff v _ (PS.2 + 1) (pr + 1 - (PS.2 + 1))).mp hL.2.2.2
            i j (by omega) hij (by omega)
        have hLout : ∀ k, k < PS.2 + 1 ∨ pr < k →
            getI (aqsWhile v PS.1 (PS.2 + 1) pr (depth - 1) fuel) k = getI PS.1 k :=
          hL.2.1
        by_cases hd : depth - 1 < 0
        · rw [if_pos hd]
          have ha := aheapsort_spec v (aqsWhile v PS.1 (PS.2 + 1) pr (depth - 1) fuel)
            pl (PS.2 - pl) (by omega) (by rw [hLlen, ht1len]; omega)
          have hC := qsRightLeft_combine v PS.1 _ _ pl PS.2 pr hpi1 hpi2
            (by rw [ht1len]; exact hpr) hps.2.2.2.2.1 hps.2.2.2.2.2
            hLlen hLout hL.2.2.1 hLsort
            ha.1 (fun k hk => ha.2.1 k (hk.imp id (fun h => by omega))) ha.2.2.1
            (by
              intro i j hi hij hj
              exact (pairwise_segKeys_iff v _ pl (PS.2 - pl)).mp ha.2.2.2
                i j hi hij (by omega))
          exact ⟨hC.1.trans ht1len, fun k hk => (hC.2.1 k hk).trans (hps.2.1 k hk),
            hC.2.2.1.trans hps.2.2.1, hC.2.2.2⟩
        · rw [if_neg hd]
          have hR := aqsWhile_spec v fuel (aqsWhile v PS.1 (PS.2 + 1) pr (depth - 1) fuel)
            pl (PS.2 - 1) (depth - 1) (by omega) (by rw [hLlen, ht1len]; omega) (by omega)
          have hC := qsRightLeft_combine v PS.1 _ _ pl PS.2 pr hpi1 hpi2
            (by rw [ht1len]; exact hpr) hps.2.2.2.2.1 hps.2.2.2.2.2
            hLlen hLout hL.2.2.1 hLsort
            hR.1 (fun k hk => hR.2.1 k hk) hR.2.2.1
            (by
              intro i j hi hij hj
              exact (pairwise_segKeys_iff v _ pl (PS.2 - 1 + 1 - pl)).mp hR.2.2.2
                i j hi hij (by omega))
          exact ⟨hC.1.trans ht1len, fun k hk => (hC.2.1 k hk).trans (hps.2.1 k hk),
            hC.2.2.1.trans hps.2.2.1, hC.2.2.2⟩
    · rw [if_neg hbig]
      exact insSort_spec v t pl pr hle hpr

end PhaseF2

section PhaseF3

variable {K : Type}

lemma map_getD_range {A : Type} (rows : List A) (d : A) :
    (List.range rows.length).map (fun i => rows.getD i d) = rows := by
  apply List.ext_getElem (by simp)
  intro n h1 h2
  simp only [List.getElem_map, List.getElem_range]
  exact List.getD_eq_getElem rows d h2

lemma filterMap_eq_map_of_some {A B : Type} (f : A → Option B) (g : A → B) :
    ∀ l : List A, (∀ a ∈ l, f a = some (g a)) → l.filterMap f = l.map g
  | [], _ => rfl
  | a :: l, h => by
    rw [List.filterMap_cons, List.map_cons, h a (List.mem_cons_self a l),
      filterMap_eq_map_of_some f g l (fun b hb => h b (List.mem_cons_of_mem a hb))]

lemma npArgsortList_spec [LinearOrder K] [Inhabited K] (keys : List K) :
    (npArgsortList keys).Perm (List.range keys.length) ∧
    ((npArgsortList keys).map (fun i => keys.getD i default)).Pairwise (· ≤ ·) := by
  set v0 : Nat → K := fun i => keys.getD i default with hv0
  by_cases hn : keys.length = 0
  · have he : npArgsortList keys = aqsWhile v0 (List.range keys.length) 0
        (keys.length - 1) (2 * (npyGetMsb keys.length keys.length : Int))
        (keys.length + 1) := rfl
    rw [he, hn]
    exact ⟨List.Perm.refl _, List.Pairwise.nil⟩
  · have hq := aqsWhile_spec v0 (keys.length + 1) (List.range keys.length) 0
      (keys.length - 1) (2 * (npyGetMsb keys.length keys.length : Int))
      (by omega) (by rw [List.length_range]; omega) (by omega)
    have he : npArgsortList keys = aqsWhile v0 (List.range keys.length) 0
        (keys.length - 1) (2 * (npyGetMsb keys.length keys.length : Int))
        (keys.length + 1) := rfl
    rw [he]
    refine ⟨hq.2.2.1, ?_⟩
    have hlenQ : (aqsWhile v0 (List.range keys.length) 0 (keys.length - 1)
        (2 * (npyGetMsb keys.length keys.length : Int)) (keys.length + 1)).length =
        keys.length := hq.1.trans (List.length_range _)
    have h1 : keys.length - 1 + 1 - 0 = (aqsWhile v0 (List.range keys.length) 0
        (keys.length - 1) (2 * (npyGetMsb keys.length keys.length : Int))
        (keys.length + 1)).length := by omega
    have hseg : segKeys v0 (aqsWhile v0 (List.range keys.length) 0 (keys.length - 1)
        (2 * (npyGetMsb keys.length keys.length : Int)) (keys.length + 1)) 0
        (keys.length - 1 + 1 - 0) =
        (aqsWhile v0 (List.range keys.length) 0 (keys.length - 1)
          (2 * (npyGetMsb keys.length keys.length : Int)) (keys.length + 1)).map v0 := by
      rw [h1]
      unfold segKeys
      rw [segIdx_full]
    have hx := hq.2.2.2
    rw [hseg] at hx
    exact hx

lemma nonNan_filter_map (keys : List (Option K)) :
    ((List.range keys.length).filter (fun i => (keys.getD i none).isSome)).map
      (fun i => keys.getD i none) = (keys.filterMap id).map some := by
  induction keys with
  | nil => rfl
  | cons k ks ih =>
    rw [List.length_cons, List.range_succ_eq_map, List.filter_cons]
    have hcomp : List.filter (fun i => (((k :: ks).getD i none).isSome))
        (List.map Nat.succ (List.range ks.length)) =
        List.map Nat.succ (List.filter (fun i => ((ks.getD i none).isSome))
          (List.range ks.length)) := by
      rw [List.filter_map]
      congr 1
    rw [hcomp]
    cases k with
    | none =>
      have hc : (((none :: ks : List (Option K)).getD 0 none).isSome) = false := rfl
      rw [hc]
      simp only [Bool.false_eq_true, if_false]
      rw [List.map_map]
      have hfe : ((fun i => (none :: ks : List (Option K)).getD i none) ∘ Nat.succ) =
          fun i => ks.getD i none := by
        funext i
        simp
      rw [hfe, ih]
      simp [List.filterMap_cons]
    | some x =>
      have hc : (((some x :: ks : List (Option K)).getD 0 none).isSome) = true := rfl
      rw [hc]
      simp only [if_true]
      rw [List.map_cons, List.map_map]
      have hfe : ((fun i => (some x :: ks : List (Option K)).getD i none) ∘ Nat.succ) =
          fun i => ks.getD i none := by
        funext i
        simp
      rw [hfe, ih]
      simp [List.filterMap_cons]

lemma nonNan_length (keys : List (Option K)) :
    ((List.range keys.length).filter (fun i => (keys.getD i none).isSome)).length =
    (keys.filterMap id).length := by
  have := congrArg List.length (nonNan_filter_map keys)
  simpa using this

lemma nonNan_point [Inhabited K] (keys : List (Option K)) :
    ∀ p, p < (keys.filterMap id).length →
      keys.getD (((List.range keys.length).filter
          (fun i => (keys.getD i none).isSome)).getD p 0) none =
      some ((keys.filterMap id).getD p default) := by
  intro p hp
  have hlen := nonNan_length keys
  have h1 : p < ((List.range keys.length).filter
      (fun i => (keys.getD i none).isSome)).length := by omega
  have h2 : (((List.range keys.length).filter (fun i => (keys.getD i none).isSome)).map
      (fun i => keys.getD i none))[p]? = ((keys.filterMap id).map some)[p]? := by
    rw [nonNan_filter_map keys]
  rw [List.getElem?_map, List.getElem?_map, List.getElem?_eq_getElem h1,
    List.getElem?_eq_getElem hp] at h2
  simp only [Option.map_some'] at h2
  have h3 := Option.some.inj h2
  rw [List.getD_eq_getElem _ _ h1, List.getD_eq_getElem _ _ hp]
  exact h3

lemma nargsort_perm [LinearOrder K] [Inhabited K] (keys : List (Option K)) :
    (nargsort keys).Perm (List.range keys.length) := by
  show (((npArgsortList (keys.filterMap id)).map
      (fun p => ((List.range keys.length).filter
        (fun i => (keys.getD i none).isSome)).getD p 0)) ++
      ((List.range keys.length).filter (fun i => (keys.getD i none).isNone))).Perm
      (List.range keys.length)
  have hlen := nonNan_length keys
  have hA : ((npArgsortList (keys.filterMap id)).map
      (fun p => ((List.range keys.length).filter
        (fun i => (keys.getD i none).isSome)).getD p 0)).Perm
      ((List.range keys.length).filter (fun i => (keys.getD i none).isSome)) := by
    have h2 := (npArgsortList_spec (keys.filterMap id)).1.map
      (fun p => ((List.range keys.length).filter
        (fun i => (keys.getD i none).isSome)).getD p 0)
    rw [← hlen] at h2
    rw [map_getD_range] at h2
    exact h2
  refine (hA.append (List.Perm.refl _)).trans ?_
  have hcong : (List.range keys.length).filter (fun i => (keys.getD i none).isNone) =
      (List.range keys.length).filter (fun i => !(keys.getD i none).isSome) := by
    apply List.filter_congr
    intro x hx
    cases keys.getD x none
    · rfl
    · rfl
  rw [hcong]
  exact List.filter_append_perm _ _

lemma nargsort_dates [LinearOrder K] [Inhabited K] (keys : List (Option K)) :
    List.filterMap (fun i => keys.getD i none) (nargsort keys) =
    ((npArgsortList (keys.filterMap id)).map
      (fun p => (keys.filterMap id).getD p default)) := by
  show List.filterMap (fun i => keys.getD i none)
      (((npArgsortList (keys.filterMap id)).map
        (fun p => ((List.range keys.length).filter
          (fun i => (keys.getD i none).isSome)).getD p 0)) ++
      ((List.range keys.length).filter (fun i => (keys.getD i none).isNone))) = _
  rw [List.filterMap_append]
  have hnil : List.filterMap (fun i => keys.getD i none)
      ((List.range keys.length).filter (fun i => (keys.getD i none).isNone)) = [] := by
    rw [List.filterMap_eq_nil_iff]
    intro a ha
    have hmem := List.of_mem_filter ha
    cases h : keys.getD a none
    · rfl
    · rw [h] at hmem
      simp at hmem
  rw [hnil, List.append_nil, List.filterMap_map]
  apply filterMap_eq_map_of_some
  intro p hp
  have hplen : p < (keys.filterMap id).length := by
    have hm := (npArgsortList_spec (keys.filterMap id)).1.mem_iff.mp hp
    rw [List.mem_range] at hm
    exact hm
  exact nonNan_point keys p hplen

lemma sort_values_perm [LinearOrder K] [Inhabited K] (rows : List (Option K × V)) :
    (sort_values rows).Perm rows := by
  show ((nargsort (rows.map Prod.fst)).map (fun i => rows.getD i (none, V.nan))).Perm rows
  have h1 := (nargsort_perm (rows.map Prod.fst)).map (fun i => rows.getD i (none, V.nan))
  rw [List.length_map] at h1
  rw [map_getD_range rows (none, V.nan)] at h1
  exact h1

lemma sort_values_dates [LinearOrder K] [Inhabited K] (rows : List (Option K × V)) :
    ((sort_values rows).filterMap Prod.fst).Pairwise (· ≤ ·) := by
  have hre : (sort_values rows).filterMap Prod.fst =
      List.filterMap (fun i => (rows.map Prod.fst).getD i none)
        (nargsort (rows.map Prod.fst)) := by
    show List.filterMap Prod.fst ((nargsort (rows.map Prod.fst)).map
      (fun i => rows.getD i (none, V.nan))) = _
    rw [List.filterMap_map]
    apply List.filterMap_congr
    intro x hx
    exact (List.getD_map rows (none, V.nan) Prod.fst).symm
  rw [hre, nargsort_dates]
  exact (npArgsortList_spec ((rows.map Prod.fst).filterMap id)).2

lemma dropna_sorted [LinearOrder K] [Inhabited K] (rows : List (Option K × V)) :
    ((dropna_all (sort_values rows)).filterMap Prod.fst).Pairwise (· ≤ ·) := by
  have hsub : (dropna_all (sort_values rows)).Sublist (sort_values rows) :=
    List.filter_sublist _
  exact List.Pairwise.sublist (hsub.filterMap Prod.fst) (sort_values_dates rows)

end PhaseF3


/-! ## C1 -/

/-- C1 (amended part): lines 116-121 build the final series by sorting
the concatenated (timestamp, value) rows by timestamp ascending and only
then dropping the NaN rows — the pipeline is exactly
drop-NaN-after-sort, the sort (pandas `sort_values` with its default
quicksort kind, embedded above as numpy's introsort) is a permutation of
the accumulated rows whose date column comes out ascending, and every
surviving row is dated and NaN-free. -/
theorem C1_sorted_series_after_drop :
    (∀ files varName tx ty,
      mainPipeline files varName tx ty =
        (dropna_all (sort_values (runBatch files varName tx ty).1),
         (runBatch files varName tx ty).2)) ∧
    (∀ rows : List (Option CFDate × V), (sort_values rows).Perm rows) ∧
    (∀ rows : List (Option CFDate × V),
      ((sort_values rows).filterMap Prod.fst).Pairwise (· ≤ ·) ∧
      ((dropna_all (sort_values rows)).filterMap Prod.fst).Pairwise (· ≤ ·)) ∧
    (∀ rows : List (Option CFDate × V), ∀ r ∈ dropna_all (sort_values rows),
      r.1.isSome = true ∧ r.2.isNaN = false) := by
  refine ⟨fun files varName tx ty => rfl, sort_values_perm, ?_, ?_⟩
  · exact fun rows => ⟨sort_values_dates rows, dropna_sorted rows⟩
  · intro rows r hr
    have hm := List.mem_filter.mp hr
    have hand := Bool.and_eq_true_iff.mp hm.2
    refine ⟨hand.1, ?_⟩
    have h2 := hand.2
    cases hb : r.2.isNaN
    · rfl
    · rw [hb] at h2
      exact absurd h2 (by decide)

/-- Witness for C1 at a concrete input: the single surviving row of a
one-source batch is dated and NaN-free. -/
theorem C1_sorted_series_after_drop_witness :
    ((some (⟨2021, 1, 1⟩ : CFDate), V.num 1).1.isSome = true ∧
     (some (⟨2021, 1, 1⟩ : CFDate), V.num 1).2.isNaN = false) :=
  C1_sorted_series_after_drop.2.2.2
    [(some ⟨2021, 1, 1⟩, V.num 1)] (some ⟨2021, 1, 1⟩, V.num 1) (by decide)

/-- C1 counterexample to the claimed stability: seventeen one-row
sources — source 0 dated 2021-01-02, sources 1-8 dated 2021-01-01,
sources 9-16 dated 2021-01-02, each carrying its source number as value
— come out of the pipeline with the date ties NOT in the order their
sources were processed (sources 1-8 then 0, 9-16), but in the scrambled
order the unstable introsort leaves them in. -/
theorem C1_stable_tie_order_counterexample :
    (mainPipeline cxFiles "rain" 0 0).1 =
      [(some ⟨2021, 1, 1⟩, V.num (mkRat 8 1)), (some ⟨2021, 1, 1⟩, V.num (mkRat 1 1)),
       (some ⟨2021, 1, 1⟩, V.num (mkRat 2 1)), (some ⟨2021, 1, 1⟩, V.num (mkRat 3 1)),
       (some ⟨2021, 1, 1⟩, V.num (mkRat 4 1)), (some ⟨2021, 1, 1⟩, V.num (mkRat 5 1)),
       (some ⟨2021, 1, 1⟩, V.num (mkRat 6 1)), (some ⟨2021, 1, 1⟩, V.num (mkRat 7 1)),
       (some ⟨2021, 1, 2⟩, V.num (mkRat 14 1)), (some ⟨2021, 1, 2⟩, V.num (mkRat 13 1)),
       (some ⟨2021, 1, 2⟩, V.num (mkRat 12 1)), (some ⟨2021, 1, 2⟩, V.num (mkRat 0 1)),
       (some ⟨2021, 1, 2⟩, V.num (mkRat 10 1)), (some ⟨2021, 1, 2⟩, V.num (mkRat 9 1)),
       (some ⟨2021, 1, 2⟩, V.num (mkRat 15 1)), (some ⟨2021, 1, 2⟩, V.num (mkRat 11 1)),
       (some ⟨2021, 1, 2⟩, V.num (mkRat 16 1))] ∧
    ([(some ⟨2021, 1, 1⟩, V.num (mkRat 8 1)), (some ⟨2021, 1, 1⟩, V.num (mkRat 1 1)),
      (some ⟨2021, 1, 1⟩, V.num (mkRat 2 1)), (some ⟨2021, 1, 1⟩, V.num (mkRat 3 1)),
      (some ⟨2021, 1, 1⟩, V.num (mkRat 4 1)), (some ⟨2021, 1, 1⟩, V.num (mkRat 5 1)),
      (some ⟨2021, 1, 1⟩, V.num (mkRat 6 1)), (some ⟨2021, 1, 1⟩, V.num (mkRat 7 1)),
      (some ⟨2021, 1, 2⟩, V.num (mkRat 14 1)), (some ⟨2021, 1, 2⟩, V.num (mkRat 13 1)),
      (some ⟨2021, 1, 2⟩, V.num (mkRat 12 1)), (some ⟨2021, 1, 2⟩, V.num (mkRat 0 1)),
      (some ⟨2021, 1, 2⟩, V.num (mkRat 10 1)), (some ⟨2021, 1, 2⟩, V.num (mkRat 9 1)),
      (some ⟨2021, 1, 2⟩, V.num (mkRat 15 1)), (some ⟨2021, 1, 2⟩, V.num (mkRat 11 1)),
      (some ⟨2021, 1, 2⟩, V.num (mkRat 16 1))] :
      List (Option CFDate × V)) ≠
    [(some ⟨2021, 1, 1⟩, V.num (mkRat 1 1)), (some ⟨2021, 1, 1⟩, V.num (mkRat 2 1)),
     (some ⟨2021, 1, 1⟩, V.num (mkRat 3 1)), (some ⟨2021, 1, 1⟩, V.num (mkRat 4 1)),
     (some ⟨2021, 1, 1⟩, V.num (mkRat 5 1)), (some ⟨2021, 1, 1⟩, V.num (mkRat 6 1)),
     (some ⟨2021, 1, 1⟩, V.num (mkRat 7 1)), (some ⟨2021, 1, 1⟩, V.num (mkRat 8 1)),
     (some ⟨2021, 1, 2⟩, V.num (mkRat 0 1)), (some ⟨2021, 1, 2⟩, V.num (mkRat 9 1)),
     (some ⟨2021, 1, 2⟩, V.num (mkRat 10 1)), (some ⟨2021, 1, 2⟩, V.num (mkRat 11 1)),
     (some ⟨2021, 1, 2⟩, V.num (mkRat 12 1)), (some ⟨2021, 1, 2⟩, V.num (mkRat 13 1)),
     (some ⟨2021, 1, 2⟩, V.num (mkRat 14 1)), (some ⟨2021, 1, 2⟩, V.num (mkRat 15 1)),
     (some ⟨2021, 1, 2⟩, V.num (mkRat 16 1))] :=
  ⟨by decide, by decide⟩

end RainfallExtractor

